import Mathlib

/-!
Shallow embedding of the normalization core of `similarweb-advanced-scraper`
(`src/extractors/competitors_parser.py`, `demographics_parser.py`,
`traffic_parser.py`, and `src/utils/retry_handler.py`), together with proofs
about the behaviour of these routines.

Modelling conventions:
* Python dynamic values are modelled by `Val` (None, int, float, str); Python
  floats are idealised as exact rationals `ℚ`, with Python's `round` modelled
  as round-half-to-even on `ℚ`.
* Python dicts are association lists `Dict := List (String × Val)` with
  first-key lookup; `d.get(k, default)` is `dictGet`.
* Python `int(x)` / `float(x)` are the partial coercions `pyInt` / `pyFloat`
  (`none` models the coercion raising); code paths where an uncaught
  exception can escape return `Except Unit`.
* `list.sort` / `sorted` (stable) are modelled by `List.insertionSort`, which
  is also stable; a stable sort's output is unique for a total preorder, so
  this is the same list CPython's sort produces.
-/

set_option maxRecDepth 4000

namespace SimilarwebScraper

/-- A Python runtime value, restricted to the shapes the payload fields take:
`None`, `int`, `float` (idealised as `ℚ`), and `str`. -/
inductive Val where
  | none
  | int (n : ℤ)
  | float (q : ℚ)
  | str (s : String)
deriving Repr, DecidableEq

/-- Python dicts as association lists (first occurrence of a key wins). -/
abbrev Dict := List (String × Val)

/-- Python `d.get(k, dflt)`. -/
def dictGet (d : Dict) (k : String) (dflt : Val) : Val :=
  (d.lookup k).getD dflt

/-- Python truthiness on `Val`: `None`, `0`, `0.0` and `""` are falsy. -/
def Val.falsy : Val → Bool
  | .none => true
  | .int n => n == 0
  | .float q => q == 0
  | .str s => s == ""

/-- Python `x or y` specialised to the `v or default` idiom of the source. -/
def Val.orDefault (v : Val) (alt : Val) : Val :=
  if v.falsy then alt else v

/-- Python `str(x)`.  (The decimal text CPython prints for a float is
approximated by `toString` on `ℚ`; no payload ever routes a float through
`str`, only domains, which are strings.) -/
def Val.pyStr : Val → String
  | .none => "None"
  | .int n => toString n
  | .float q => toString q
  | .str s => s

/-- Python `str.strip()`: drop whitespace from both ends. -/
def pyStrip (s : String) : String :=
  ⟨((s.data.dropWhile Char.isWhitespace).reverse.dropWhile Char.isWhitespace).reverse⟩

/-- Both-ends `dropWhile`, the list-level core of `pyStrip`. -/
def stripList (p : α → Bool) (l : List α) : List α :=
  ((l.dropWhile p).reverse.dropWhile p).reverse


/-- Value of a string of decimal digits; `none` if a non-digit occurs. -/
def natOfDigits (cs : List Char) : Option ℕ :=
  cs.foldl
    (fun acc c =>
      match acc with
      | some a => if c.isDigit then some (a * 10 + (c.toNat - 48)) else Option.none
      | Option.none => Option.none)
    (some 0)

/-- CPython `float(s)` on a string: optional sign, digits with at most one
dot.  (Scientific notation, `inf`/`nan` and surrounding whitespace — all
irrelevant to the payloads — are not modelled and fail.) -/
def parseDecimal (s : String) : Option ℚ :=
  let signed : ℚ × List Char :=
    match s.data with
    | '-' :: rest => (-1, rest)
    | '+' :: rest => (1, rest)
    | cs => (1, cs)
  let sign := signed.1
  let cs := signed.2
  let ip := cs.takeWhile (· ≠ '.')
  match cs.dropWhile (· ≠ '.') with
  | [] =>
    match natOfDigits ip with
    | some n => if ip.isEmpty then Option.none else some (sign * n)
    | Option.none => Option.none
  | _ :: fp =>
    if fp.contains '.' then Option.none
    else if ip.isEmpty && fp.isEmpty then Option.none
    else
      match natOfDigits ip, natOfDigits fp with
      | some n, some m => some (sign * ((n : ℚ) + (m : ℚ) / (10 : ℚ) ^ fp.length))
      | _, _ => Option.none

/-- CPython `int(s)` on a string: optional sign then digits. -/
def parsePyInt (s : String) : Option ℤ :=
  match s.data with
  | '-' :: rest =>
    if rest.isEmpty then Option.none
    else (natOfDigits rest).map (fun n => -(n : ℤ))
  | '+' :: rest =>
    if rest.isEmpty then Option.none
    else (natOfDigits rest).map (fun n => (n : ℤ))
  | cs =>
    if cs.isEmpty then Option.none
    else (natOfDigits cs).map (fun n => (n : ℤ))

/-- Truncation of a rational toward zero, as CPython `int(float)` does. -/
def ratTrunc (q : ℚ) : ℤ :=
  if 0 ≤ q then ⌊q⌋ else -⌊-q⌋

/-- Python `float(x)`; `none` models `float` raising. -/
def pyFloat : Val → Option ℚ
  | .int n => some (n : ℚ)
  | .float q => some q
  | .str s => parseDecimal s
  | .none => Option.none

/-- Python `int(x)`; `none` models `int` raising. -/
def pyInt : Val → Option ℤ
  | .int n => some n
  | .float q => some (ratTrunc q)
  | .str s => parsePyInt s
  | .none => Option.none

/-- Round a rational to the nearest integer, ties to even (CPython `round`). -/
def roundHalfEven (q : ℚ) : ℤ :=
  if q - ⌊q⌋ < 1 / 2 then ⌊q⌋
  else if 1 / 2 < q - ⌊q⌋ then ⌊q⌋ + 1
  else if 2 ∣ ⌊q⌋ then ⌊q⌋ else ⌊q⌋ + 1

/-- Python `round(q, nd)`. -/
def pyRound (q : ℚ) (nd : ℕ) : ℚ :=
  (roundHalfEven (q * 10 ^ nd) : ℚ) / 10 ^ nd

/-- Python `round(q, 3)`. -/
def round3 (q : ℚ) : ℚ := pyRound q 3

/-- Python `round(q, 2)`. -/
def round2 (q : ℚ) : ℚ := pyRound q 2

/-! ## competitors_parser.py -/

/-- Value read back off a cleaned competitor entry by the sort-key lambda of
`parse_competitors` (the cleaned entries always hold an `int`/`float` there). -/
def Val.asNum : Val → ℚ
  | .int n => (n : ℚ)
  | .float q => q
  | _ => 0

/-- Sort key of the lambda on line 24:
`(c.get("similarityScore", 0.0), c.get("visitsTotalCount", 0))`. -/
def sortKey (d : Dict) : ℚ × ℚ :=
  ((dictGet d "similarityScore" (.float 0)).asNum,
   (dictGet d "visitsTotalCount" (.int 0)).asNum)

/-- Weak lexicographic order on key pairs (Python tuple `≤`). -/
def pairLex (x y : ℚ × ℚ) : Prop :=
  x.1 < y.1 ∨ (x.1 = y.1 ∧ x.2 ≤ y.2)

instance : DecidableRel pairLex := fun x y => by
  unfold pairLex; exact inferInstance

/-- Relation realising `cleaned.sort(key=..., reverse=True)`: descending in
the key pair, stable (a stable sort's output is unique for a total preorder,
so `insertionSort` gives the same list as CPython's stable sort). -/
def compRel (a b : Dict) : Prop :=
  pairLex (sortKey b) (sortKey a)

instance : DecidableRel compRel := fun a b => by
  unfold compRel; exact inferInstance

instance : IsTotal Dict compRel :=
  ⟨fun a b => by
    unfold compRel pairLex
    rcases lt_trichotomy (sortKey b).1 (sortKey a).1 with h | h | h
    · exact Or.inl (Or.inl h)
    · rcases le_total (sortKey b).2 (sortKey a).2 with h2 | h2
      · exact Or.inl (Or.inr ⟨h, h2⟩)
      · exact Or.inr (Or.inr ⟨h.symm, h2⟩)
    · exact Or.inr (Or.inl h)⟩

instance : IsTrans Dict compRel :=
  ⟨fun _ _ _ h1 h2 => by
    unfold compRel pairLex at *
    rcases h2 with h2 | ⟨h2e, h2le⟩
    · rcases h1 with h1 | ⟨h1e, h1le⟩
      · exact Or.inl (h2.trans h1)
      · exact Or.inl (h1e ▸ h2)
    · rcases h1 with h1 | ⟨h1e, h1le⟩
      · exact Or.inl (h2e ▸ h1)
      · exact Or.inr ⟨h2e.trans h1e, h2le.trans h1le⟩⟩

/-- The local `domain` of the cleaning loop (line 8):
`str(comp.get("domain", "")).strip()`. -/
def domainStr (comp : Dict) : String :=
  pyStrip (dictGet comp "domain" (.str "")).pyStr

/-- The local `visits` (line 11): `comp.get("visitsTotalCount", 0) or 0`. -/
def visitsVal (comp : Dict) : Val :=
  (dictGet comp "visitsTotalCount" (.int 0)).orDefault (.int 0)

/-- The local `similarity` (lines 12–14): `comp.get("similarityScore", None)`
with `None` replaced by `0.0`. -/
def similarityVal (comp : Dict) : Val :=
  match dictGet comp "similarityScore" Val.none with
  | Val.none => Val.float 0
  | v => v

/-- Body of the cleaning loop of `parse_competitors` (lines 7–22) for one
entry: `ok none` when the entry is dropped (blank domain), `ok (some d)` when
kept, `error` when `int()`/`float()` raises on a malformed value. -/
def cleanCompetitor (comp : Dict) : Except Unit (Option Dict) :=
  if domainStr comp = "" then .ok Option.none
  else
    match pyInt (visitsVal comp), pyFloat (similarityVal comp) with
    | some vi, some sf =>
      .ok (some [("domain", .str (domainStr comp)), ("visitsTotalCount", .int vi),
                 ("similarityScore", .float sf)])
    | _, _ => .error ()

/-- The cleaning loop over the whole competitor list; the first uncaught
exception aborts the whole call. -/
def cleanCompetitors : List Dict → Except Unit (List Dict)
  | [] => .ok []
  | c :: rest =>
    match cleanCompetitor c with
    | .error e => .error e
    | .ok r =>
      match cleanCompetitors rest with
      | .error e => .error e
      | .ok tail =>
        match r with
        | some d => .ok (d :: tail)
        | Option.none => .ok tail

/-- Result record of `parse_competitors`. -/
structure CompetitorsOut where
  topSimilarityCompetitors : List Dict
  competitorsCount : ℕ
deriving Repr, DecidableEq

/-- Source `parse_competitors` (competitors_parser.py).  The argument is the content
of `raw_competitors.get("topSimilarityCompetitors") or []` (`none` for an
absent or falsy field).  An uncaught coercion exception is `error`. -/
def parse_competitors (competitorsList : Option (List Dict)) :
    Except Unit CompetitorsOut :=
  match cleanCompetitors (competitorsList.getD []) with
  | .error e => .error e
  | .ok cleaned => .ok ⟨(cleaned.insertionSort compRel).take 10, cleaned.length⟩

/-- An entry survives the blank-domain filter. -/
def keptCompetitor (c : Dict) : Bool :=
  !(domainStr c == "")


/-! ## demographics_parser.py -/

/-- Source `_normalize` (demographics_parser.py lines 3–7); `total` is inlined as
`values.sum`. -/
def pyNormalize (values : List ℚ) : List ℚ :=
  if values.sum ≤ 0 then
    if values = [] then [] else values.map (fun _ => 1 / (values.length : ℚ))
  else values.map (fun v => v / values.sum)

/-- A cleaned age bucket. -/
structure AgeBucket where
  minAge : ℤ
  maxAge : ℤ
  value : ℚ
deriving Repr, DecidableEq

/-- Body of the age-bucket cleaning loop (lines 14–21): a coercion failure in
any of the three fields silently drops that single bucket. -/
def cleanAgeItem (item : Dict) : Option AgeBucket :=
  match pyInt (dictGet item "minAge" Val.none),
        pyInt (dictGet item "maxAge" Val.none),
        pyFloat ((dictGet item "value" (.int 0)).orDefault (.int 0)) with
  | some mn, some mx, some v => some ⟨mn, mx, v⟩
  | _, _, _ => Option.none

/-- Relation for `ages.sort(key=lambda x: x["minAge"])` (stable, ascending). -/
def ageRel (a b : AgeBucket) : Prop :=
  a.minAge ≤ b.minAge

instance : DecidableRel ageRel := fun a b => by
  unfold ageRel; exact inferInstance

instance : IsTotal AgeBucket ageRel :=
  ⟨fun a b => le_total a.minAge b.minAge⟩

instance : IsTrans AgeBucket ageRel :=
  ⟨fun _ _ _ h1 h2 => le_trans h1 h2⟩

/-- Cleaned age buckets in sorted order (lines 14–23). -/
def sortedAges (ageDistributionRaw : Option (List Dict)) : List AgeBucket :=
  ((ageDistributionRaw.getD []).filterMap cleanAgeItem).insertionSort ageRel

/-- The age part of `parse_demographics` (lines 13–28): the `if values:`
guard, then `_normalize` and per-bucket rounding over `zip(ages, normalized)`. -/
def ageDistributionOf (ageDistributionRaw : Option (List Dict)) : List AgeBucket :=
  if (sortedAges ageDistributionRaw).map (·.value) = [] then
    sortedAges ageDistributionRaw
  else
    ((sortedAges ageDistributionRaw).zip
        (pyNormalize ((sortedAges ageDistributionRaw).map (·.value)))).map
      (fun p => { p.1 with value := round3 p.2 })

/-- The two gender floats after the `try` block (lines 30–34): a coercion
failure on either field zeroes out both. -/
def genderCoerced (gd : Dict) : ℚ × ℚ :=
  match pyFloat ((dictGet gd "male" (.int 0)).orDefault (.int 0)),
        pyFloat ((dictGet gd "female" (.int 0)).orDefault (.int 0)) with
  | some m, some f => (m, f)
  | _, _ => (0, 0)

/-- Lines 36–40: default to `0.5/0.5` when both are non-positive, otherwise
renormalise the pair. -/
def genderNormalized (mf : ℚ × ℚ) : ℚ × ℚ :=
  if mf.1 ≤ 0 ∧ mf.2 ≤ 0 then (1 / 2, 1 / 2)
  else
    match pyNormalize [mf.1, mf.2] with
    | [a, b] => (a, b)
    | _ => (0, 0)

/-- Result record for the gender half of `parse_demographics`. -/
structure GenderOut where
  male : ℚ
  female : ℚ
deriving Repr, DecidableEq

/-- The gender part of `parse_demographics` (lines 30–42). -/
def genderDistributionOf (genderDistributionRaw : Option Dict) : GenderOut :=
  ⟨round3 (genderNormalized (genderCoerced (genderDistributionRaw.getD []))).1,
   round3 (genderNormalized (genderCoerced (genderDistributionRaw.getD []))).2⟩

/-- Result record of `parse_demographics`. -/
structure DemographicsOut where
  ageDistribution : List AgeBucket
  genderDistribution : GenderOut
deriving Repr, DecidableEq

/-- Source `parse_demographics` (demographics_parser.py).  The two arguments are the
contents of `raw_demographics.get("ageDistribution") or []` and
`raw_demographics.get("genderDistribution") or {}` (`none` = absent/falsy). -/
def parse_demographics (ageDistributionRaw : Option (List Dict))
    (genderDistributionRaw : Option Dict) : DemographicsOut :=
  ⟨ageDistributionOf ageDistributionRaw, genderDistributionOf genderDistributionRaw⟩

/-! ## traffic_parser.py -/

/-- The `date` sort key `x.get("date", "")`; `none` when the stored date is
not a string (Python would then compare heterogeneous types). -/
def dateKey (x : Dict) : Option String :=
  match dictGet x "date" (.str "") with
  | .str s => some s
  | _ => Option.none

/-- Relation for `sorted(historical, key=lambda x: x.get("date", ""))`. -/
def dateRel (a b : Dict) : Prop :=
  ((dateKey a).getD "") ≤ ((dateKey b).getD "")

instance : DecidableRel dateRel := fun a b => by
  unfold dateRel; exact inferInstance

instance : IsTotal Dict dateRel :=
  ⟨fun a b => le_total ((dateKey a).getD "") ((dateKey b).getD "")⟩

instance : IsTrans Dict dateRel :=
  ⟨fun _ _ _ h1 h2 => le_trans h1 h2⟩

/-- Source `_ensure_sorted_historical` (lines 3–7): sort by the `date` key; the
`except` branch (Python's sort raising `TypeError` on heterogeneous keys)
returns the original list, modelled by falling back whenever some date is not
a string. -/
def ensureSortedHistorical (historical : List Dict) : List Dict :=
  if historical.all (fun x => (dateKey x).isSome) then
    historical.insertionSort dateRel
  else historical

/-- Python `float(item.get("visits", 0) or 0)` for one historical point. -/
def pointVisitsFloat (item : Dict) : Option ℚ :=
  pyFloat ((dictGet item "visits" (.int 0)).orDefault (.int 0))

/-- Python `int(item.get("visits", 0) or 0)` for one historical point. -/
def pointVisitsInt (item : Dict) : Option ℤ :=
  pyInt ((dictGet item "visits" (.int 0)).orDefault (.int 0))

/-- Source `_compute_growth` (lines 9–17); `error` models `float()` raising. -/
def compute_growth : List Dict → Except Unit ℚ
  | [] => .ok 0
  | [_] => .ok 0
  | a :: b :: rest =>
    match pointVisitsFloat a,
          pointVisitsFloat ((a :: b :: rest).getLast (by simp)) with
    | some first, some last =>
      if first ≤ 0 then .ok 0 else .ok (round3 ((last - first) / first))
    | _, _ => .error ()

/-- Python `float(item.get("visits", 0) or 0)` across a list, aborting at the first
item on which `float()` raises. -/
def coerceVisitsFloats : List Dict → Except Unit (List ℚ)
  | [] => .ok []
  | item :: rest =>
    match pointVisitsFloat item with
    | Option.none => .error ()
    | some v =>
      match coerceVisitsFloats rest with
      | .error e => .error e
      | .ok vs => .ok (v :: vs)

/-- Python `int(item.get("visits", 0) or 0)` across a list, aborting at the first
item on which `int()` raises. -/
def coerceVisitsInts : List Dict → Except Unit (List ℤ)
  | [] => .ok []
  | item :: rest =>
    match pointVisitsInt item with
    | Option.none => .error ()
    | some v =>
      match coerceVisitsInts rest with
      | .error e => .error e
      | .ok vs => .ok (v :: vs)

/-- Source `_compute_average_visits` (lines 19–23); `error` models `float()` raising. -/
def compute_average_visits (historical : List Dict) : Except Unit ℚ :=
  if historical = [] then .ok 0
  else
    match coerceVisitsFloats historical with
    | .error e => .error e
    | .ok vs => .ok (round2 (vs.sum / (historical.length : ℚ)))

/-- Input record for `parse_traffic`'s first argument: `historical` is `none`
for an absent, falsy or non-list field (the `or []`/`isinstance` guards);
`visitsTotalCount` is `none` when the key is absent and `some .none` when it
is present with an explicit `None`. -/
structure TrafficIn where
  historical : Option (List Dict)
  visitsTotalCount : Option Val
deriving Repr, DecidableEq

/-- The `traffic_summary` dict (lines 41–46). -/
structure TrafficSummary where
  historical : List Dict
  visitsTotalCount : Val
  averageMonthlyVisits : ℚ
  visitsGrowthRate : ℚ
deriving Repr, DecidableEq

/-- Result record of `parse_traffic`. -/
structure TrafficOut where
  traffic : TrafficSummary
  trafficSources : Dict
  ranking : Dict
deriving Repr, DecidableEq

/-- The sorted historical list `parse_traffic` works on (lines 30–34). -/
def sortedHistOf (traffic : TrafficIn) : List Dict :=
  ensureSortedHistorical (traffic.historical.getD [])

/-- Lines 37–39: `traffic.get("visitsTotalCount")` passes through unchanged
unless it is `None` (absent key or explicit `None`), in which case the
summed fallback is used. -/
def totalCountVal (traffic : TrafficIn) : Except Unit Val :=
  if traffic.visitsTotalCount.getD Val.none = Val.none then
    match coerceVisitsInts (sortedHistOf traffic) with
    | .error e => .error e
    | .ok vs => .ok (.int vs.sum)
  else .ok (traffic.visitsTotalCount.getD Val.none)

/-- Source `parse_traffic` (traffic_parser.py lines 25–52).  `trafficSources` and
`ranking` are `none` for absent/falsy arguments (the `or {}` defaults). -/
def parse_traffic (traffic : TrafficIn) (trafficSources : Option Dict)
    (ranking : Option Dict) : Except Unit TrafficOut :=
  match compute_growth (sortedHistOf traffic),
        compute_average_visits (sortedHistOf traffic),
        totalCountVal traffic with
  | .ok growth, .ok avgVisits, .ok visitsTotalCount =>
    .ok ⟨⟨sortedHistOf traffic, visitsTotalCount, avgVisits, growth⟩,
         trafficSources.getD [], ranking.getD []⟩
  | .error e, _, _ => .error e
  | .ok _, .error e, _ => .error e
  | .ok _, .ok _, .error e => .error e

/-! ## retry_handler.py -/

/-- Execution trace of one call to a `retry`-wrapped operation: how many
times the wrapped function was invoked, the sleeps performed between
attempts (in order, in seconds), and the final outcome. -/
structure RetryTrace (ε α : Type) where
  calls : ℕ
  sleeps : List ℚ
  result : Except ε α
deriving Repr

/-- The `while True` loop of `retry`'s `wrapper` (lines 28–53).  `op i` is
the outcome of the i-th invocation of the wrapped function (0-based); the
`remaining` fuel is `retries - attempt`, so `0` means the next failure is
re-raised. -/
def retryLoop (op : ℕ → Except ε α) (callIdx : ℕ) (delay : ℚ) :
    ℕ → RetryTrace ε α
  | 0 =>
    match op callIdx with
    | .ok a => ⟨1, [], .ok a⟩
    | .error e => ⟨1, [], .error e⟩
  | remaining + 1 =>
    match op callIdx with
    | .ok a => ⟨1, [], .ok a⟩
    | .error _ =>
      let t := retryLoop op (callIdx + 1) (delay * 2) remaining
      ⟨t.calls + 1, delay :: t.sleeps, t.result⟩

/-- A call to a function wrapped by `retry(retries, backoff_in_seconds)`
(retry_handler.py), for an operation whose every failure matches the
configured exception tuple. -/
def retryCall (retries : ℕ) (backoffInSeconds : ℚ) (op : ℕ → Except ε α) :
    RetryTrace ε α :=
  retryLoop op 0 backoffInSeconds retries

/-! ## Concrete inputs and outputs used in evaluated instances -/

/-- Three all-zero age buckets, as in the spec's scenario family. -/
def zeroBuckets3 : List Dict := [
  [("minAge", Val.int 18), ("maxAge", Val.int 24), ("value", Val.int 0)],
  [("minAge", Val.int 25), ("maxAge", Val.int 34), ("value", Val.int 0)],
  [("minAge", Val.int 35), ("maxAge", Val.int 44), ("value", Val.int 0)]]

/-- The spec's all-zero two-bucket scenario. -/
def zeroBuckets2 : List Dict := [
  [("minAge", Val.int 18), ("maxAge", Val.int 24), ("value", Val.int 0)],
  [("minAge", Val.int 25), ("maxAge", Val.int 34), ("value", Val.int 0)]]

/-- Two buckets with positive total value. -/
def posBuckets2 : List Dict := [
  [("minAge", Val.int 18), ("maxAge", Val.int 24), ("value", Val.int 1)],
  [("minAge", Val.int 25), ("maxAge", Val.int 34), ("value", Val.int 3)]]

/-- The spec's three-point historical scenario (dates out of order). -/
def histScenario : List Dict := [
  [("date", Val.str "2024-01"), ("visits", Val.int 100)],
  [("date", Val.str "2024-03"), ("visits", Val.int 150)],
  [("date", Val.str "2024-02"), ("visits", Val.int 120)]]

/-- The output record `parse_traffic` produces on `histScenario`. -/
def histScenarioOut : TrafficOut :=
  ⟨⟨[[("date", Val.str "2024-01"), ("visits", Val.int 100)],
     [("date", Val.str "2024-02"), ("visits", Val.int 120)],
     [("date", Val.str "2024-03"), ("visits", Val.int 150)]],
    .int 370, 12333 / 100, 1 / 2⟩, [], []⟩

/-- The dict a first-pass age bucket presents to a second pass. -/
def ageBucketDict (a : AgeBucket) : Dict :=
  [("minAge", .int a.minAge), ("maxAge", .int a.maxAge), ("value", .float a.value)]

/-- The cleaned entry every copy of `[("domain", "a")]` maps to. -/
def cleanedA : Dict :=
  [("domain", Val.str "a"), ("visitsTotalCount", Val.int 0),
   ("similarityScore", Val.float 0)]

/-- The traffic output used by the C7 witness. -/
def t7out : TrafficOut :=
  ⟨⟨[[("date", Val.str ""), ("visits", Val.int 5)]], Val.int 7, 5, 0⟩, [], []⟩

/-- The cleaned entry used by the C7 witness's competitors conjunct. -/
def cleanedB : Dict :=
  [("domain", Val.str "b"), ("visitsTotalCount", Val.int 0),
   ("similarityScore", Val.float 0)]


/-! ## Rounding lemmas -/

theorem pairLex_total (x y : ℚ × ℚ) : pairLex x y ∨ pairLex y x := by
  unfold pairLex
  rcases lt_trichotomy x.1 y.1 with h | h | h
  · exact Or.inl (Or.inl h)
  · rcases le_total x.2 y.2 with h2 | h2
    · exact Or.inl (Or.inr ⟨h, h2⟩)
    · exact Or.inr (Or.inr ⟨h.symm, h2⟩)
  · exact Or.inr (Or.inl h)

theorem pairLex_trans {x y z : ℚ × ℚ} (h1 : pairLex x y) (h2 : pairLex y z) :
    pairLex x z := by
  unfold pairLex at *
  rcases h1 with h1 | ⟨h1e, h1le⟩
  · rcases h2 with h2 | ⟨h2e, _⟩
    · exact Or.inl (h1.trans h2)
    · exact Or.inl (h2e ▸ h1)
  · rcases h2 with h2 | ⟨h2e, h2le⟩
    · exact Or.inl (h1e ▸ h2)
    · exact Or.inr ⟨h1e.trans h2e, h1le.trans h2le⟩


theorem roundHalfEven_eq_floor {q : ℚ} (h : q - ⌊q⌋ < 1 / 2) :
    roundHalfEven q = ⌊q⌋ := by
  unfold roundHalfEven
  rw [if_pos h]

theorem roundHalfEven_eq_floor_add_one {q : ℚ} (h : 1 / 2 < q - ⌊q⌋) :
    roundHalfEven q = ⌊q⌋ + 1 := by
  unfold roundHalfEven
  rw [if_neg (by linarith), if_pos h]

theorem roundHalfEven_tie {q : ℚ} (h : q - ⌊q⌋ = 1 / 2) :
    roundHalfEven q = if 2 ∣ ⌊q⌋ then ⌊q⌋ else ⌊q⌋ + 1 := by
  unfold roundHalfEven
  rw [if_neg (by linarith), if_neg (by linarith)]

theorem roundHalfEven_intCast (n : ℤ) : roundHalfEven (n : ℚ) = n := by
  have h : ⌊(n : ℚ)⌋ = n := Int.floor_intCast n
  rw [roundHalfEven_eq_floor (by rw [h]; norm_num), h]

theorem abs_roundHalfEven_sub (q : ℚ) : |(roundHalfEven q : ℚ) - q| ≤ 1 / 2 := by
  have h0 : (⌊q⌋ : ℚ) ≤ q := Int.floor_le q
  have h1 : q < ⌊q⌋ + 1 := Int.lt_floor_add_one q
  rcases lt_trichotomy (q - ⌊q⌋) (1 / 2) with h | h | h
  · rw [roundHalfEven_eq_floor h, abs_sub_comm, abs_of_nonneg (by linarith)]
    linarith
  · rw [roundHalfEven_tie h]
    by_cases hd : (2 : ℤ) ∣ ⌊q⌋
    · rw [if_pos hd, abs_sub_comm, abs_of_nonneg (by linarith)]
      linarith
    · rw [if_neg hd]
      push_cast
      rw [abs_of_nonneg (by linarith)]
      linarith
  · rw [roundHalfEven_eq_floor_add_one h]
    push_cast
    rw [abs_of_nonneg (by linarith)]
    linarith

theorem roundHalfEven_nonneg {q : ℚ} (h : 0 ≤ q) : 0 ≤ roundHalfEven q := by
  have hf : 0 ≤ ⌊q⌋ := Int.floor_nonneg.mpr h
  unfold roundHalfEven
  split
  · exact hf
  · split
    · omega
    · split <;> omega

theorem roundHalfEven_add_even (x y : ℚ) (n : ℤ) (hn : 2 ∣ n)
    (hxy : x + y = (n : ℚ)) :
    roundHalfEven x + roundHalfEven y = n := by
  have hfx : (⌊x⌋ : ℚ) ≤ x := Int.floor_le x
  have hfx1 : x < ⌊x⌋ + 1 := Int.lt_floor_add_one x
  by_cases hint : x - ⌊x⌋ = 0
  · have hx : x = ((⌊x⌋ : ℤ) : ℚ) := by linarith
    have hy : y = ((n - ⌊x⌋ : ℤ) : ℚ) := by push_cast; linarith
    rw [hx, hy, roundHalfEven_intCast, roundHalfEven_intCast]
    omega
  · have hfrac : 0 < x - ⌊x⌋ := lt_of_le_of_ne (by linarith) (Ne.symm hint)
    have hfy : ⌊y⌋ = n - ⌊x⌋ - 1 := by
      rw [Int.floor_eq_iff]
      constructor
      · push_cast; linarith
      · push_cast; linarith
    have hyfrac : y - (⌊y⌋ : ℚ) = 1 - (x - ⌊x⌋) := by
      rw [hfy]; push_cast; linarith
    rcases lt_trichotomy (x - ⌊x⌋) (1 / 2) with h | h | h
    · rw [roundHalfEven_eq_floor h, roundHalfEven_eq_floor_add_one (by linarith)]
      omega
    · rw [roundHalfEven_tie h, roundHalfEven_tie (by linarith)]
      by_cases hpar : (2 : ℤ) ∣ ⌊x⌋
      · rw [if_pos hpar, if_neg (by omega)]
        omega
      · rw [if_neg hpar, if_pos (by omega)]
        omega
    · rw [roundHalfEven_eq_floor_add_one h, roundHalfEven_eq_floor (by linarith)]
      omega

theorem round3_eq (q : ℚ) : round3 q = (roundHalfEven (q * 1000) : ℚ) / 1000 := by
  unfold round3 pyRound
  norm_num

theorem round2_eq (q : ℚ) : round2 q = (roundHalfEven (q * 100) : ℚ) / 100 := by
  unfold round2 pyRound
  norm_num

theorem abs_round3_sub (q : ℚ) : |round3 q - q| ≤ 1 / 2000 := by
  have h := abs_roundHalfEven_sub (q * 1000)
  rw [round3_eq]
  have hq : (roundHalfEven (q * 1000) : ℚ) / 1000 - q =
      ((roundHalfEven (q * 1000) : ℚ) - q * 1000) / 1000 := by ring
  rw [hq, abs_div]
  rw [abs_of_pos (by norm_num : (0 : ℚ) < 1000)]
  linarith

theorem round3_nonneg {q : ℚ} (h : 0 ≤ q) : 0 ≤ round3 q := by
  rw [round3_eq]
  have : 0 ≤ roundHalfEven (q * 1000) := roundHalfEven_nonneg (by positivity)
  positivity

theorem round3_add_eq_one {a b : ℚ} (hab : a + b = 1) :
    round3 a + round3 b = 1 := by
  have h : roundHalfEven (a * 1000) + roundHalfEven (b * 1000) = 1000 := by
    apply roundHalfEven_add_even _ _ 1000 (by norm_num)
    push_cast
    linarith
  rw [round3_eq, round3_eq, div_add_div_same]
  rw [show (roundHalfEven (a * 1000) : ℚ) + (roundHalfEven (b * 1000) : ℚ) =
      ((roundHalfEven (a * 1000) + roundHalfEven (b * 1000) : ℤ) : ℚ) by push_cast; ring]
  rw [h]
  norm_num

theorem round3_int_div_thousand (k : ℤ) : round3 ((k : ℚ) / 1000) = (k : ℚ) / 1000 := by
  rw [round3_eq]
  rw [show (k : ℚ) / 1000 * 1000 = (k : ℚ) by ring]
  rw [roundHalfEven_intCast]

theorem round3_idem (q : ℚ) : round3 (round3 q) = round3 q := by
  rw [round3_eq q]
  exact round3_int_div_thousand _

/-! ## `str.strip` is idempotent -/

theorem pyStrip_data (s : String) :
    (pyStrip s).data = stripList Char.isWhitespace s.data := rfl

theorem head_false_of_dropWhile_cons {p : α → Bool} {l t : List α} {a : α}
    (hA : l.dropWhile p = a :: t) : p a = false := by
  have h := List.head?_dropWhile_not p l
  rw [hA] at h
  simpa using h

theorem stripList_idem (p : α → Bool) (l : List α) :
    stripList p (stripList p l) = stripList p l := by
  cases hA : l.dropWhile p with
  | nil =>
    unfold stripList
    rw [hA]
    simp
  | cons a t =>
    have ha : p a = false := head_false_of_dropWhile_cons hA
    have hrev : (a :: t).reverse = t.reverse ++ [a] := by simp
    -- the right-stripped reversed list still ends in `a`
    obtain ⟨X, hX⟩ : ∃ X, (l.dropWhile p).reverse.dropWhile p = X ++ [a] := by
      rw [hA, hrev, List.dropWhile_append]
      by_cases hemp : (t.reverse.dropWhile p).isEmpty
      · exact ⟨[], by rw [if_pos hemp, List.dropWhile_cons_of_neg (by simp [ha])]; simp⟩
      · exact ⟨t.reverse.dropWhile p, by rw [if_neg hemp]⟩
    have hBhead : ∀ u v, (l.dropWhile p).reverse.dropWhile p = u :: v → p u = false :=
      fun u v h => head_false_of_dropWhile_cons h
    -- `stripList p l` starts with `a`, which is not whitespace
    have hR : stripList p l = a :: X.reverse := by
      unfold stripList
      rw [hX]
      simp
    have hstep1 : (stripList p l).dropWhile p = stripList p l := by
      rw [hR, List.dropWhile_cons_of_neg (by simp [ha])]
    -- the reverse of `stripList p l` is the already-stripped `X ++ [a]`
    have hstep2 : (stripList p l).reverse.dropWhile p = (stripList p l).reverse := by
      rw [hR]
      have : (a :: X.reverse).reverse = X ++ [a] := by simp
      rw [this, ← hX]
      cases hB : (l.dropWhile p).reverse.dropWhile p with
      | nil => simp
      | cons u v =>
        rw [List.dropWhile_cons_of_neg (by simp [hBhead u v hB])]
    calc stripList p (stripList p l)
        = (((stripList p l).dropWhile p).reverse.dropWhile p).reverse := rfl
      _ = ((stripList p l).reverse.dropWhile p).reverse := by rw [hstep1]
      _ = (stripList p l).reverse.reverse := by rw [hstep2]
      _ = stripList p l := List.reverse_reverse _

theorem pyStrip_idem (s : String) : pyStrip (pyStrip s) = pyStrip s := by
  apply String.ext
  rw [pyStrip_data, pyStrip_data, stripList_idem]

/-! ## Sum lemmas -/

theorem sum_map_div (l : List ℚ) (t : ℚ) :
    (l.map (fun v => v / t)).sum = l.sum / t := by
  induction l with
  | nil => simp
  | cons a l ih =>
    simp only [List.map_cons, List.sum_cons, ih]
    ring

theorem abs_sum_map_round3_sub (xs : List ℚ) :
    |(xs.map round3).sum - xs.sum| ≤ (xs.length : ℚ) * (1 / 2000) := by
  induction xs with
  | nil => simp
  | cons a xs ih =>
    have h1 : |round3 a - a| ≤ 1 / 2000 := abs_round3_sub a
    have h2 : ((a :: xs).map round3).sum - (a :: xs).sum =
        (round3 a - a) + ((xs.map round3).sum - xs.sum) := by
      simp only [List.map_cons, List.sum_cons]
      ring
    calc |((a :: xs).map round3).sum - (a :: xs).sum|
        ≤ |round3 a - a| + |(xs.map round3).sum - xs.sum| := by
          rw [h2]; exact abs_add _ _
      _ ≤ 1 / 2000 + (xs.length : ℚ) * (1 / 2000) := by
          exact add_le_add h1 ih
      _ = ((a :: xs).length : ℚ) * (1 / 2000) := by
          simp only [List.length_cons]
          push_cast
          ring

/-! ## `_normalize` lemmas -/

theorem pyNormalize_length (values : List ℚ) :
    (pyNormalize values).length = values.length := by
  unfold pyNormalize
  split
  · split
    · simp_all
    · simp
  · simp

theorem pyNormalize_of_pos {values : List ℚ} (h : 0 < values.sum) :
    pyNormalize values = values.map (fun v => v / values.sum) := by
  unfold pyNormalize
  rw [if_neg (by linarith)]

theorem pyNormalize_sum_of_pos {values : List ℚ} (h : 0 < values.sum) :
    (pyNormalize values).sum = 1 := by
  rw [pyNormalize_of_pos h, sum_map_div, div_self (ne_of_gt h)]

theorem pyNormalize_of_nonpos {values : List ℚ} (h : values.sum ≤ 0)
    (hne : values ≠ []) :
    pyNormalize values = values.map (fun _ => 1 / (values.length : ℚ)) := by
  unfold pyNormalize
  rw [if_pos h, if_neg hne]

/-! ## Lemmas about the competitor cleaning loop -/

theorem cleanCompetitor_ok_none_iff {c : Dict} :
    cleanCompetitor c = .ok Option.none ↔ domainStr c = "" := by
  unfold cleanCompetitor
  by_cases hd : domainStr c = ""
  · simp [hd]
  · rw [if_neg hd]
    cases hvi : pyInt (visitsVal c) <;> cases hsf : pyFloat (similarityVal c) <;>
      simp [hd]

theorem cleanCompetitor_some_shape {c d : Dict}
    (h : cleanCompetitor c = .ok (some d)) :
    domainStr c ≠ "" ∧
    ∃ vi sf, d = [("domain", .str (domainStr c)), ("visitsTotalCount", .int vi),
                  ("similarityScore", .float sf)] := by
  unfold cleanCompetitor at h
  by_cases hd : domainStr c = ""
  · rw [if_pos hd] at h
    exact absurd h (by simp)
  · rw [if_neg hd] at h
    refine ⟨hd, ?_⟩
    cases hvi : pyInt (visitsVal c) <;> cases hsf : pyFloat (similarityVal c) <;>
      rw [hvi, hsf] at h <;> simp at h
    exact ⟨_, _, h.symm⟩

theorem cleanCompetitors_mem : ∀ {l cleaned : List Dict},
    cleanCompetitors l = .ok cleaned → ∀ {d}, d ∈ cleaned →
    ∃ c, c ∈ l ∧ cleanCompetitor c = .ok (some d) := by
  intro l
  induction l with
  | nil =>
    intro cleaned h d hd
    unfold cleanCompetitors at h
    simp at h
    subst h
    simp at hd
  | cons c rest ih =>
    intro cleaned h d hd
    unfold cleanCompetitors at h
    cases hc : cleanCompetitor c <;> rw [hc] at h
    · exact absurd h (by simp)
    · cases ht : cleanCompetitors rest <;> rw [ht] at h
      · exact absurd h (by simp)
      · rename_i r tail
        cases r with
        | none =>
          simp at h
          subst h
          obtain ⟨c', hc', hcl⟩ := ih ht hd
          exact ⟨c', List.mem_cons_of_mem _ hc', hcl⟩
        | some d' =>
          simp at h
          subst h
          rcases List.mem_cons.mp hd with rfl | hd'
          · exact ⟨c, List.mem_cons_self _ _, hc⟩
          · obtain ⟨c', hc', hcl⟩ := ih ht hd'
            exact ⟨c', List.mem_cons_of_mem _ hc', hcl⟩

theorem cleanCompetitors_length : ∀ {l cleaned : List Dict},
    cleanCompetitors l = .ok cleaned →
    cleaned.length = (l.filter keptCompetitor).length := by
  intro l
  induction l with
  | nil =>
    intro cleaned h
    unfold cleanCompetitors at h
    simp at h
    subst h
    simp
  | cons c rest ih =>
    intro cleaned h
    unfold cleanCompetitors at h
    cases hc : cleanCompetitor c <;> rw [hc] at h
    · exact absurd h (by simp)
    · cases ht : cleanCompetitors rest <;> rw [ht] at h
      · exact absurd h (by simp)
      · rename_i r tail
        cases r with
        | none =>
          simp at h
          subst h
          have hdom : domainStr c = "" := cleanCompetitor_ok_none_iff.mp hc
          have hkept : keptCompetitor c = false := by
            unfold keptCompetitor
            simp [hdom]
          rw [List.filter_cons_of_neg (by simp [hkept])]
          exact ih ht
        | some d =>
          simp at h
          subst h
          have hdom : domainStr c ≠ "" := (cleanCompetitor_some_shape hc).1
          have hkept : keptCompetitor c = true := by
            unfold keptCompetitor
            simp [hdom]
          rw [List.filter_cons_of_pos (by simp [hkept])]
          simp only [List.length_cons]
          rw [ih ht]

theorem parse_competitors_ok {raw : Option (List Dict)} {out : CompetitorsOut}
    (h : parse_competitors raw = .ok out) :
    ∃ cleaned, cleanCompetitors (raw.getD []) = .ok cleaned ∧
      out = ⟨(cleaned.insertionSort compRel).take 10, cleaned.length⟩ := by
  unfold parse_competitors at h
  cases hc : cleanCompetitors (raw.getD []) <;> rw [hc] at h
  · exact absurd h (by simp)
  · rename_i cleaned
    refine ⟨cleaned, rfl, ?_⟩
    simp at h
    exact h.symm

/-- C1: for every input competitor structure, `parse_competitors` returns
`topSimilarityCompetitors` of length `min(10, competitorsCount)`, sorted
descending by the pair `(similarityScore, visitsTotalCount)` (similarity
primary, visits tie-break), and `competitorsCount` equals the number of all
cleaned (non-dropped) entries, not just the first 10. -/
theorem parse_competitors_top_spec (raw : Option (List Dict))
    (out : CompetitorsOut) (h : parse_competitors raw = .ok out) :
    out.topSimilarityCompetitors.length = min 10 out.competitorsCount ∧
    out.topSimilarityCompetitors.Pairwise
      (fun a b => pairLex (sortKey b) (sortKey a)) ∧
    ∃ cleaned, cleanCompetitors (raw.getD []) = .ok cleaned ∧
      out.competitorsCount = cleaned.length := by
  obtain ⟨cleaned, hc, rfl⟩ := parse_competitors_ok h
  refine ⟨?_, ?_, cleaned, hc, rfl⟩
  · simp [List.length_take, List.length_insertionSort]
  · have hs : (cleaned.insertionSort compRel).Pairwise compRel :=
      List.sorted_insertionSort compRel cleaned
    exact hs.sublist (List.take_sublist _ _)

/-- Witness for C1 at the spec's scenario input: one blank-domain entry is
dropped, the remaining entry is returned and counted. -/
theorem parse_competitors_top_spec_witness :
    (⟨[[("domain", Val.str "a.com"), ("visitsTotalCount", Val.int 10),
        ("similarityScore", Val.float (1 / 2))]], 1⟩ :
      CompetitorsOut).topSimilarityCompetitors.length =
      min 10 (⟨[[("domain", Val.str "a.com"), ("visitsTotalCount", Val.int 10),
        ("similarityScore", Val.float (1 / 2))]], 1⟩ :
          CompetitorsOut).competitorsCount ∧
    (⟨[[("domain", Val.str "a.com"), ("visitsTotalCount", Val.int 10),
        ("similarityScore", Val.float (1 / 2))]], 1⟩ :
      CompetitorsOut).topSimilarityCompetitors.Pairwise
        (fun a b => pairLex (sortKey b) (sortKey a)) ∧
    ∃ cleaned,
      cleanCompetitors ((some [
        [("domain", Val.str ""), ("visitsTotalCount", Val.int 5),
         ("similarityScore", Val.float (9 / 10))],
        [("domain", Val.str "a.com"), ("visitsTotalCount", Val.int 10),
         ("similarityScore", Val.float (1 / 2))]]).getD []) = .ok cleaned ∧
      (⟨[[("domain", Val.str "a.com"), ("visitsTotalCount", Val.int 10),
          ("similarityScore", Val.float (1 / 2))]], 1⟩ :
        CompetitorsOut).competitorsCount = cleaned.length :=
  parse_competitors_top_spec
    (some [
      [("domain", Val.str ""), ("visitsTotalCount", Val.int 5),
       ("similarityScore", Val.float (9 / 10))],
      [("domain", Val.str "a.com"), ("visitsTotalCount", Val.int 10),
       ("similarityScore", Val.float (1 / 2))]])
    ⟨[[("domain", Val.str "a.com"), ("visitsTotalCount", Val.int 10),
       ("similarityScore", Val.float (1 / 2))]], 1⟩
    (by with_unfolding_all rfl)

theorem dictGet_entry_domain (s : String) (n : ℤ) (q : ℚ) :
    dictGet [("domain", Val.str s), ("visitsTotalCount", Val.int n),
             ("similarityScore", Val.float q)] "domain" (.str "") = .str s := rfl

theorem dictGet_entry_visits (s : String) (n : ℤ) (q : ℚ) :
    dictGet [("domain", Val.str s), ("visitsTotalCount", Val.int n),
             ("similarityScore", Val.float q)] "visitsTotalCount" (.int 0) =
      .int n := rfl

theorem dictGet_entry_similarity (s : String) (n : ℤ) (q : ℚ) :
    dictGet [("domain", Val.str s), ("visitsTotalCount", Val.int n),
             ("similarityScore", Val.float q)] "similarityScore" (.float 0) =
      .float q := rfl

/-- Membership in the output list comes from a kept cleaned entry. -/
theorem parse_competitors_mem_top {raw : Option (List Dict)}
    {out : CompetitorsOut} (h : parse_competitors raw = .ok out) {d : Dict}
    (hd : d ∈ out.topSimilarityCompetitors) :
    ∃ c, c ∈ raw.getD [] ∧ cleanCompetitor c = .ok (some d) := by
  obtain ⟨cleaned, hc, rfl⟩ := parse_competitors_ok h
  have hd' : d ∈ cleaned := by
    have := List.mem_of_mem_take hd
    rwa [List.mem_insertionSort] at this
  exact cleanCompetitors_mem hc hd'

/-- C5 (amended): every output entry of `parse_competitors` has a non-empty
string domain that is already whitespace-trimmed, an integer
`visitsTotalCount` — but not necessarily a non-negative one, since negative
inputs pass through `int()` unchanged — and a float `similarityScore`;
entries whose domain is empty or whitespace-only are excluded from both the
output list and `competitorsCount`. -/
theorem parse_competitors_entry_invariant (raw : Option (List Dict))
    (out : CompetitorsOut) (h : parse_competitors raw = .ok out) :
    (∀ d ∈ out.topSimilarityCompetitors,
      ∃ s : String, dictGet d "domain" (.str "") = .str s ∧
        pyStrip s = s ∧ s ≠ "" ∧
        (∃ n : ℤ, dictGet d "visitsTotalCount" (.int 0) = .int n) ∧
        (∃ q : ℚ, dictGet d "similarityScore" (.float 0) = .float q)) ∧
    out.competitorsCount = ((raw.getD []).filter keptCompetitor).length := by
  constructor
  · intro d hd
    obtain ⟨c, _, hcl⟩ := parse_competitors_mem_top h hd
    obtain ⟨hdom, vi, sf, rfl⟩ := cleanCompetitor_some_shape hcl
    refine ⟨domainStr c, dictGet_entry_domain _ _ _, ?_, hdom,
      ⟨vi, dictGet_entry_visits _ _ _⟩, ⟨sf, dictGet_entry_similarity _ _ _⟩⟩
    unfold domainStr
    exact pyStrip_idem _
  · obtain ⟨cleaned, hc, rfl⟩ := parse_competitors_ok h
    exact cleanCompetitors_length hc

/-- C5 counterexample: a negative input `visitsTotalCount` is kept verbatim,
so the output entry's count is negative, contradicting the claimed
non-negativity invariant. -/
theorem parse_competitors_keeps_negative_visits :
    parse_competitors (some [[("domain", Val.str "a.com"),
        ("visitsTotalCount", Val.int (-5)), ("similarityScore", Val.float 1)]]) =
      .ok ⟨[[("domain", Val.str "a.com"), ("visitsTotalCount", Val.int (-5)),
             ("similarityScore", Val.float 1)]], 1⟩ ∧
    (-5 : ℤ) < 0 :=
  ⟨by with_unfolding_all rfl, by norm_num⟩

/-- Witness for C5's amended theorem at the negative-visits input. -/
theorem parse_competitors_entry_invariant_witness :
    (∀ d ∈ (⟨[[("domain", Val.str "a.com"), ("visitsTotalCount", Val.int (-5)),
        ("similarityScore", Val.float 1)]], 1⟩ :
          CompetitorsOut).topSimilarityCompetitors,
      ∃ s : String, dictGet d "domain" (.str "") = .str s ∧
        pyStrip s = s ∧ s ≠ "" ∧
        (∃ n : ℤ, dictGet d "visitsTotalCount" (.int 0) = .int n) ∧
        (∃ q : ℚ, dictGet d "similarityScore" (.float 0) = .float q)) ∧
    (⟨[[("domain", Val.str "a.com"), ("visitsTotalCount", Val.int (-5)),
        ("similarityScore", Val.float 1)]], 1⟩ :
      CompetitorsOut).competitorsCount =
      (((some [[("domain", Val.str "a.com"), ("visitsTotalCount", Val.int (-5)),
        ("similarityScore", Val.float 1)]]).getD ([] : List Dict)).filter
          keptCompetitor).length :=
  parse_competitors_entry_invariant
    (some [[("domain", Val.str "a.com"), ("visitsTotalCount", Val.int (-5)),
      ("similarityScore", Val.float 1)]])
    ⟨[[("domain", Val.str "a.com"), ("visitsTotalCount", Val.int (-5)),
       ("similarityScore", Val.float 1)]], 1⟩
    (by with_unfolding_all rfl)

/-- C10: every kept output entry of `parse_competitors` is rebuilt with
exactly the keys `domain`, `visitsTotalCount`, `similarityScore` (in that
order), and the cleaning step reads only those three input fields, so any
other input field is discarded. -/
theorem parse_competitors_entry_keys (raw : Option (List Dict))
    (out : CompetitorsOut) (h : parse_competitors raw = .ok out) :
    (∀ d ∈ out.topSimilarityCompetitors,
      d.map Prod.fst = ["domain", "visitsTotalCount", "similarityScore"]) ∧
    (∀ c₁ c₂ : Dict,
      dictGet c₁ "domain" (.str "") = dictGet c₂ "domain" (.str "") →
      dictGet c₁ "visitsTotalCount" (.int 0) =
        dictGet c₂ "visitsTotalCount" (.int 0) →
      dictGet c₁ "similarityScore" Val.none =
        dictGet c₂ "similarityScore" Val.none →
      cleanCompetitor c₁ = cleanCompetitor c₂) := by
  constructor
  · intro d hd
    obtain ⟨c, _, hcl⟩ := parse_competitors_mem_top h hd
    obtain ⟨_, vi, sf, rfl⟩ := cleanCompetitor_some_shape hcl
    rfl
  · intro c₁ c₂ h1 h2 h3
    have hdom : domainStr c₁ = domainStr c₂ := by
      unfold domainStr
      rw [h1]
    have hvis : visitsVal c₁ = visitsVal c₂ := by
      unfold visitsVal
      rw [h2]
    have hsim : similarityVal c₁ = similarityVal c₂ := by
      unfold similarityVal
      rw [h3]
    unfold cleanCompetitor
    rw [hdom, hvis, hsim]

/-- Witness for C10: an input entry carrying an unrelated extra field maps to
an output entry with exactly the three canonical keys. -/
theorem parse_competitors_entry_keys_witness :
    (∀ d ∈ (⟨[[("domain", Val.str "a.com"), ("visitsTotalCount", Val.int 0),
        ("similarityScore", Val.float 0)]], 1⟩ :
          CompetitorsOut).topSimilarityCompetitors,
      d.map Prod.fst = ["domain", "visitsTotalCount", "similarityScore"]) ∧
    (∀ c₁ c₂ : Dict,
      dictGet c₁ "domain" (.str "") = dictGet c₂ "domain" (.str "") →
      dictGet c₁ "visitsTotalCount" (.int 0) =
        dictGet c₂ "visitsTotalCount" (.int 0) →
      dictGet c₁ "similarityScore" Val.none =
        dictGet c₂ "similarityScore" Val.none →
      cleanCompetitor c₁ = cleanCompetitor c₂) :=
  parse_competitors_entry_keys
    (some [[("domain", Val.str "a.com"), ("extra", Val.int 7)]])
    ⟨[[("domain", Val.str "a.com"), ("visitsTotalCount", Val.int 0),
       ("similarityScore", Val.float 0)]], 1⟩
    (by with_unfolding_all rfl)

theorem cleanCompetitors_ok_of_no_error : ∀ l : List Dict,
    (∀ c ∈ l, cleanCompetitor c ≠ .error ()) →
    ∃ cleaned, cleanCompetitors l = .ok cleaned := by
  intro l
  induction l with
  | nil => exact fun _ => ⟨[], rfl⟩
  | cons c rest ih =>
    intro hno
    obtain ⟨tail, ht⟩ := ih (fun c' hc' => hno c' (List.mem_cons_of_mem _ hc'))
    cases hc : cleanCompetitor c with
    | error e =>
      cases e
      exact absurd hc (hno c (List.mem_cons_self _ _))
    | ok r =>
      cases r with
      | none =>
        refine ⟨tail, ?_⟩
        unfold cleanCompetitors
        rw [hc, ht]
      | some d =>
        refine ⟨d :: tail, ?_⟩
        unfold cleanCompetitors
        rw [hc, ht]

/-- C6 (amended): malformed individual age buckets are dropped at the finest
granularity — removing a non-coercible bucket item changes nothing else in
`parse_demographics`' output — and `parse_competitors` succeeds whenever
every entry either has a blank domain (dropped silently) or numeric fields
on which `int()`/`float()` succeed; but `parse_competitors` has no per-entry
try/except, so a kept entry with a non-coercible `visitsTotalCount` or
`similarityScore` raises (see the counterexample theorem). -/
theorem per_item_error_isolation :
    (∀ (pre post : List Dict) (item : Dict) (g : Option Dict),
      cleanAgeItem item = Option.none →
      parse_demographics (some (pre ++ item :: post)) g =
        parse_demographics (some (pre ++ post)) g) ∧
    (∀ l : List Dict, (∀ c ∈ l, cleanCompetitor c ≠ .error ()) →
      ∃ out, parse_competitors (some l) = .ok out) := by
  constructor
  · intro pre post item g hitem
    have hs : sortedAges (some (pre ++ item :: post)) =
        sortedAges (some (pre ++ post)) := by
      unfold sortedAges
      simp only [Option.getD_some, List.filterMap_append]
      rw [List.filterMap_cons_none]
      exact hitem
    unfold parse_demographics ageDistributionOf
    rw [hs]
  · intro l hno
    obtain ⟨cleaned, hcl⟩ := cleanCompetitors_ok_of_no_error l hno
    refine ⟨⟨(cleaned.insertionSort compRel).take 10, cleaned.length⟩, ?_⟩
    unfold parse_competitors
    rw [Option.getD_some, hcl]

/-- C6 counterexample: a present but non-coercible `visitsTotalCount` makes
`parse_competitors` raise — `int("abc")` propagates, since
competitors_parser.py has no per-entry error handling. -/
theorem parse_competitors_raises_on_bad_visits :
    parse_competitors (some [[("domain", Val.str "a.com"),
      ("visitsTotalCount", Val.str "abc")]]) = .error () := by
  with_unfolding_all rfl

/-- Witness for C6's amended theorem: dropping one bad age bucket leaves the
rest unchanged, and an all-coercible competitor list parses successfully. -/
theorem per_item_error_isolation_witness :
    (parse_demographics (some ([] ++ [("minAge", Val.str "bad")] :: [])) Option.none =
      parse_demographics (some ([] ++ [])) Option.none) ∧
    ∃ out, parse_competitors (some [[("domain", Val.str "a.com")]]) = .ok out :=
  ⟨per_item_error_isolation.1 [] [] [("minAge", Val.str "bad")] Option.none
      (by with_unfolding_all rfl),
   per_item_error_isolation.2 [[("domain", Val.str "a.com")]]
      (by
        intro c hc
        rw [List.mem_singleton] at hc
        subst hc
        rw [show cleanCompetitor [("domain", Val.str "a.com")] =
            .ok (some [("domain", Val.str "a.com"), ("visitsTotalCount", Val.int 0),
                       ("similarityScore", Val.float 0)]) from by with_unfolding_all rfl]
        simp)⟩

/-! ## Gender distribution lemmas -/

theorem genderNormalized_cases (mf : ℚ × ℚ) :
    ((mf.1 + mf.2 ≤ 0 ∨ (mf.1 ≤ 0 ∧ mf.2 ≤ 0)) ∧
      genderNormalized mf = (1 / 2, 1 / 2)) ∨
    (0 < mf.1 + mf.2 ∧
      genderNormalized mf =
        (mf.1 / (mf.1 + mf.2), mf.2 / (mf.1 + mf.2))) := by
  unfold genderNormalized
  by_cases h1 : mf.1 ≤ 0 ∧ mf.2 ≤ 0
  · left
    exact ⟨Or.inr h1, by rw [if_pos h1]⟩
  · rw [if_neg h1]
    have hsum : [mf.1, mf.2].sum = mf.1 + mf.2 := by simp
    by_cases h2 : mf.1 + mf.2 ≤ 0
    · left
      refine ⟨Or.inl h2, ?_⟩
      rw [pyNormalize_of_nonpos (by rw [hsum]; exact h2) (by simp)]
      norm_num
    · right
      refine ⟨by linarith, ?_⟩
      rw [pyNormalize_of_pos (by rw [hsum]; linarith)]
      rw [hsum]
      simp

theorem genderNormalized_sum (mf : ℚ × ℚ) :
    (genderNormalized mf).1 + (genderNormalized mf).2 = 1 := by
  rcases genderNormalized_cases mf with ⟨_, he⟩ | ⟨hpos, he⟩
  · rw [he]
    norm_num
  · rw [he]
    have : mf.1 + mf.2 ≠ 0 := ne_of_gt hpos
    field_simp

/-- C3 (amended): the `genderDistribution` produced by `parse_demographics`
always has `male + female = 1` exactly; it is exactly `0.5/0.5` whenever both
coerced inputs are non-positive (in particular for `male = female = 0`); and
both components are non-negative whenever both coerced inputs are
non-negative.  Dropping that last proviso is unsound: a negative input
produces a negative output component (see the counterexample). -/
theorem genderDistribution_spec (g : Option Dict) :
    (genderDistributionOf g).male + (genderDistributionOf g).female = 1 ∧
    ((genderCoerced (g.getD [])).1 ≤ 0 ∧ (genderCoerced (g.getD [])).2 ≤ 0 →
      genderDistributionOf g = ⟨1 / 2, 1 / 2⟩) ∧
    (0 ≤ (genderCoerced (g.getD [])).1 ∧ 0 ≤ (genderCoerced (g.getD [])).2 →
      0 ≤ (genderDistributionOf g).male ∧
        0 ≤ (genderDistributionOf g).female) := by
  refine ⟨?_, ?_, ?_⟩
  · unfold genderDistributionOf
    exact round3_add_eq_one (genderNormalized_sum _)
  · intro hnp
    unfold genderDistributionOf
    rcases genderNormalized_cases (genderCoerced (g.getD [])) with ⟨_, he⟩ | ⟨hpos, _⟩
    · rw [he]
      have h12 : round3 ((1 : ℚ) / 2) = 1 / 2 := by
        rw [round3_eq, show (1 : ℚ) / 2 * 1000 = ((500 : ℤ) : ℚ) by norm_num,
          roundHalfEven_intCast]
        norm_num
      show GenderOut.mk (round3 (1 / 2)) (round3 (1 / 2)) = _
      rw [h12]
    · exact absurd hpos (by push_neg; linarith [hnp.1, hnp.2])
  · intro hnn
    unfold genderDistributionOf
    rcases genderNormalized_cases (genderCoerced (g.getD [])) with ⟨_, he⟩ | ⟨hpos, he⟩
    · rw [he]
      constructor <;> exact round3_nonneg (by norm_num)
    · rw [he]
      constructor
      · exact round3_nonneg (div_nonneg hnn.1 (le_of_lt hpos))
      · exact round3_nonneg (div_nonneg hnn.2 (le_of_lt hpos))

/-- C3 counterexample: coerced inputs `male = 5`, `female = -3` produce
`female = -1.5 < 0`, violating the claimed non-negativity. -/
theorem genderDistribution_negative_component :
    genderDistributionOf (some [("male", Val.int 5), ("female", Val.int (-3))]) =
      ⟨5 / 2, -3 / 2⟩ ∧
    (genderDistributionOf
        (some [("male", Val.int 5), ("female", Val.int (-3))])).female < 0 := by
  constructor
  · with_unfolding_all decide
  · with_unfolding_all decide

/-- Witness for C3's amended theorem at `male = female = 0`. -/
theorem genderDistribution_spec_witness :
    ((genderDistributionOf (some [("male", Val.int 0),
        ("female", Val.int 0)])).male +
      (genderDistributionOf (some [("male", Val.int 0),
        ("female", Val.int 0)])).female = 1) ∧
    genderDistributionOf (some [("male", Val.int 0), ("female", Val.int 0)]) =
      ⟨1 / 2, 1 / 2⟩ ∧
    (0 ≤ (genderDistributionOf (some [("male", Val.int 0),
        ("female", Val.int 0)])).male ∧
      0 ≤ (genderDistributionOf (some [("male", Val.int 0),
        ("female", Val.int 0)])).female) :=
  ⟨(genderDistribution_spec _).1,
   (genderDistribution_spec _).2.1 (by with_unfolding_all decide),
   (genderDistribution_spec _).2.2 (by with_unfolding_all decide)⟩

/-! ## Age distribution lemmas -/

theorem ageDistributionOf_minAges (raw : Option (List Dict)) :
    (ageDistributionOf raw).map (·.minAge) = (sortedAges raw).map (·.minAge) := by
  unfold ageDistributionOf
  by_cases h : (sortedAges raw).map (·.value) = []
  · rw [if_pos h]
  · rw [if_neg h]
    have hlen : (sortedAges raw).length ≤
        (pyNormalize ((sortedAges raw).map (·.value))).length := by
      rw [pyNormalize_length, List.length_map]
    rw [List.map_map]
    have hfst : ((sortedAges raw).zip
          (pyNormalize ((sortedAges raw).map (·.value)))).map
        ((fun a : AgeBucket => a.minAge) ∘
          (fun p : AgeBucket × ℚ => { p.1 with value := round3 p.2 })) =
        (((sortedAges raw).zip
          (pyNormalize ((sortedAges raw).map (·.value)))).map Prod.fst).map
            (fun a : AgeBucket => a.minAge) := by
      rw [List.map_map]
      rfl
    rw [hfst, List.map_fst_zip _ _ hlen]

theorem ageDistributionOf_length (raw : Option (List Dict)) :
    (ageDistributionOf raw).length = (sortedAges raw).length := by
  have h := congrArg List.length (ageDistributionOf_minAges raw)
  simpa using h

theorem ageDistributionOf_values (raw : Option (List Dict))
    (h : (sortedAges raw).map (·.value) ≠ []) :
    (ageDistributionOf raw).map (·.value) =
      (pyNormalize ((sortedAges raw).map (·.value))).map round3 := by
  unfold ageDistributionOf
  rw [if_neg h]
  have hlen : (pyNormalize ((sortedAges raw).map (·.value))).length ≤
      (sortedAges raw).length := by
    rw [pyNormalize_length, List.length_map]
  rw [List.map_map]
  have hsnd : ((sortedAges raw).zip
        (pyNormalize ((sortedAges raw).map (·.value)))).map
      ((fun a : AgeBucket => a.value) ∘
        (fun p : AgeBucket × ℚ => { p.1 with value := round3 p.2 })) =
      (((sortedAges raw).zip
        (pyNormalize ((sortedAges raw).map (·.value)))).map Prod.snd).map round3 := by
    rw [List.map_map]
    rfl
  rw [hsnd, List.map_snd_zip _ _ hlen]

theorem sortedAges_pairwise (raw : Option (List Dict)) :
    (sortedAges raw).Pairwise ageRel := by
  unfold sortedAges
  exact List.sorted_insertionSort ageRel _

/-- C2 (amended): the surviving age buckets are sorted ascending by `minAge`;
when the cleaned values sum to ≤ 0 every bucket receives the equal weight
`1/N` rounded to 3 decimals (`round3 (1/N)`, not exactly `1/N` — see the
counterexample); when the sum `T` is positive every value becomes
`round3 (v / T)` and the output values sum to 1 within `N × 0.001`. -/
theorem parse_demographics_age_spec (raw : Option (List Dict)) (g : Option Dict) :
    (parse_demographics raw g).ageDistribution.Pairwise
      (fun a b => a.minAge ≤ b.minAge) ∧
    (((sortedAges raw).map (·.value)).sum ≤ 0 →
      ∀ a ∈ (parse_demographics raw g).ageDistribution,
        a.value = round3
          (1 / ((parse_demographics raw g).ageDistribution.length : ℚ))) ∧
    (0 < ((sortedAges raw).map (·.value)).sum →
      (parse_demographics raw g).ageDistribution.map (·.value) =
        ((sortedAges raw).map (·.value)).map
          (fun v => round3 (v / ((sortedAges raw).map (·.value)).sum)) ∧
      |((parse_demographics raw g).ageDistribution.map (·.value)).sum - 1| ≤
        ((parse_demographics raw g).ageDistribution.length : ℚ) * (1 / 1000)) := by
  have hage : (parse_demographics raw g).ageDistribution = ageDistributionOf raw := rfl
  refine ⟨?_, ?_, ?_⟩
  · rw [hage]
    have hs : ((sortedAges raw).map (·.minAge)).Pairwise
        (fun a b : ℤ => a ≤ b) :=
      List.pairwise_map.mpr (sortedAges_pairwise raw)
    have hs2 : ((ageDistributionOf raw).map (·.minAge)).Pairwise
        (fun a b : ℤ => a ≤ b) := by
      rw [ageDistributionOf_minAges]
      exact hs
    exact List.pairwise_map.mp hs2
  · intro hT a ha
    rw [hage] at ha ⊢
    by_cases hnil : (sortedAges raw).map (·.value) = []
    · exfalso
      have : sortedAges raw = [] := List.map_eq_nil_iff.mp hnil
      have h0 : ageDistributionOf raw = [] := by
        unfold ageDistributionOf
        rw [if_pos hnil, this]
      rw [h0] at ha
      simp at ha
    · have hv := ageDistributionOf_values raw hnil
      rw [pyNormalize_of_nonpos hT hnil, List.map_map] at hv
      have hmem : a.value ∈ (ageDistributionOf raw).map (·.value) :=
        List.mem_map_of_mem _ ha
      rw [hv] at hmem
      obtain ⟨v, _, hvv⟩ := List.mem_map.mp hmem
      have hN : (ageDistributionOf raw).length = (sortedAges raw).length :=
        ageDistributionOf_length raw
      have hNv : ((sortedAges raw).map (·.value)).length =
          (sortedAges raw).length := List.length_map _ _
      rw [hN]
      rw [← hvv]
      show (round3 ∘ fun _ => 1 / (((sortedAges raw).map (·.value)).length : ℚ)) v =
        round3 (1 / ((sortedAges raw).length : ℚ))
      simp only [Function.comp_apply, hNv]
  · intro hT
    have hnil : (sortedAges raw).map (·.value) ≠ [] := by
      intro he
      rw [he] at hT
      simp at hT
    have hv := ageDistributionOf_values raw hnil
    rw [pyNormalize_of_pos hT] at hv
    constructor
    · rw [hage, hv]
      simp only [List.map_map]
      rfl
    · rw [hage, hv]
      have hsum1 : (((sortedAges raw).map (·.value)).map
          (fun v => v / ((sortedAges raw).map (·.value)).sum)).sum = 1 := by
        rw [sum_map_div, div_self (ne_of_gt hT)]
      have hb := abs_sum_map_round3_sub (((sortedAges raw).map (·.value)).map
        (fun v => v / ((sortedAges raw).map (·.value)).sum))
      rw [hsum1] at hb
      have hlen3 : ((((sortedAges raw).map (·.value)).map
          (fun v => v / ((sortedAges raw).map (·.value)).sum)).length : ℚ) =
          ((ageDistributionOf raw).length : ℚ) := by
        rw [List.length_map, List.length_map, ageDistributionOf_length]
      rw [hlen3] at hb
      have hn : (0 : ℚ) ≤ ((ageDistributionOf raw).length : ℚ) := Nat.cast_nonneg _
      calc |((((sortedAges raw).map (·.value)).map
              (fun v => v / ((sortedAges raw).map (·.value)).sum)).map
                round3).sum - 1|
          ≤ ((ageDistributionOf raw).length : ℚ) * (1 / 2000) := hb
        _ ≤ ((ageDistributionOf raw).length : ℚ) * (1 / 1000) := by
            apply mul_le_mul_of_nonneg_left _ hn
            norm_num

/-- C2 counterexample: three all-zero buckets receive `0.333`, which is the
rounded — not the exact — equal weight `1/3`. -/
theorem parse_demographics_equal_weight_rounded :
    (parse_demographics (some zeroBuckets3)
      Option.none).ageDistribution.map (·.value) =
        [333 / 1000, 333 / 1000, 333 / 1000] ∧
    (333 / 1000 : ℚ) ≠ 1 / 3 := by
  constructor
  · with_unfolding_all decide
  · norm_num

/-- Witness for C2's amended theorem: the spec's all-zero two-bucket scenario
(equal weights `0.5`) and a positive-sum two-bucket input. -/
theorem parse_demographics_age_spec_witness :
    ((⟨18, 24, 1 / 2⟩ : AgeBucket).value =
      round3 (1 / ((parse_demographics (some zeroBuckets2)
        Option.none).ageDistribution.length : ℚ))) ∧
    ((parse_demographics (some posBuckets2)
        Option.none).ageDistribution.map (·.value) =
      ((sortedAges (some posBuckets2)).map (·.value)).map
        (fun v => round3
          (v / ((sortedAges (some posBuckets2)).map (·.value)).sum)) ∧
    |((parse_demographics (some posBuckets2)
        Option.none).ageDistribution.map (·.value)).sum - 1| ≤
      ((parse_demographics (some posBuckets2)
        Option.none).ageDistribution.length : ℚ) * (1 / 1000)) :=
  ⟨(parse_demographics_age_spec (some zeroBuckets2) Option.none).2.1
      (by with_unfolding_all decide) ⟨18, 24, 1 / 2⟩
      (by with_unfolding_all decide),
   (parse_demographics_age_spec (some posBuckets2) Option.none).2.2
      (by with_unfolding_all decide)⟩

/-! ## Traffic lemmas -/

theorem parse_traffic_build {traffic : TrafficIn} {ts r : Option Dict}
    {growth avg : ℚ} {total : Val}
    (hg : compute_growth (sortedHistOf traffic) = .ok growth)
    (ha : compute_average_visits (sortedHistOf traffic) = .ok avg)
    (ht : totalCountVal traffic = .ok total) :
    parse_traffic traffic ts r =
      .ok ⟨⟨sortedHistOf traffic, total, avg, growth⟩, ts.getD [], r.getD []⟩ := by
  unfold parse_traffic
  rw [hg, ha, ht]

theorem parse_traffic_ok {traffic : TrafficIn} {ts r : Option Dict}
    {out : TrafficOut} (h : parse_traffic traffic ts r = .ok out) :
    ∃ growth avg total,
      compute_growth (sortedHistOf traffic) = .ok growth ∧
      compute_average_visits (sortedHistOf traffic) = .ok avg ∧
      totalCountVal traffic = .ok total ∧
      out = ⟨⟨sortedHistOf traffic, total, avg, growth⟩,
             ts.getD [], r.getD []⟩ := by
  unfold parse_traffic at h
  cases hg : compute_growth (sortedHistOf traffic) <;> rw [hg] at h
  · exact absurd h (by simp)
  · cases ha : compute_average_visits (sortedHistOf traffic) <;> rw [ha] at h
    · exact absurd h (by simp)
    · cases ht : totalCountVal traffic <;> rw [ht] at h
      · exact absurd h (by simp)
      · rename_i growth avg total
        refine ⟨growth, avg, total, rfl, rfl, rfl, ?_⟩
        simp at h
        exact h.symm

theorem compute_growth_short {l : List Dict} (h : l.length < 2) :
    compute_growth l = .ok 0 := by
  cases l with
  | nil => rfl
  | cons a t =>
    cases t with
    | nil => rfl
    | cons b u => simp at h; omega

theorem compute_growth_long {l : List Dict} {hd lst : Dict}
    (hh : l.head? = some hd) (hl : l.getLast? = some lst)
    (hlen : 2 ≤ l.length) {first lastv : ℚ}
    (hf : pointVisitsFloat hd = some first)
    (hlast : pointVisitsFloat lst = some lastv) :
    compute_growth l =
      .ok (if first ≤ 0 then 0 else round3 ((lastv - first) / first)) := by
  match l, hlen with
  | a :: b :: rest, _ =>
    have ha : hd = a := by
      simp at hh
      exact hh.symm
    subst ha
    have hglast : (hd :: b :: rest).getLast (by simp) = lst := by
      have h2 := List.getLast?_eq_getLast (hd :: b :: rest) (by simp)
      rw [hl] at h2
      exact (Option.some.inj h2).symm
    have hkey : pointVisitsFloat ((hd :: b :: rest).getLast (by simp)) =
        some lastv := by
      rw [hglast]
      exact hlast
    simp only [compute_growth]
    rw [hf, hkey]
    by_cases hc : first ≤ 0 <;> simp [hc]

theorem compute_average_ok {l : List Dict} {vs : List ℚ} (hne : l ≠ [])
    (hvs : coerceVisitsFloats l = .ok vs) :
    compute_average_visits l = .ok (round2 (vs.sum / (l.length : ℚ))) := by
  unfold compute_average_visits
  rw [if_neg hne, hvs]

theorem totalCountVal_present {traffic : TrafficIn} {v : Val}
    (hv : traffic.visitsTotalCount = some v) (hne : v ≠ Val.none) :
    totalCountVal traffic = .ok v := by
  unfold totalCountVal
  rw [hv]
  rw [Option.getD_some, if_neg hne]

/-- C4: `visitsGrowthRate` is 0 when there are fewer than 2 points or the
date-sorted first point's visits are ≤ 0, and otherwise
`round3((last-first)/first)` with first/last in date-sorted order;
`averageMonthlyVisits` is 0 on an empty history and otherwise the rounded
arithmetic mean of the coerced visits. -/
theorem parse_traffic_growth_avg_spec (traffic : TrafficIn) (ts r : Option Dict)
    (out : TrafficOut) (h : parse_traffic traffic ts r = .ok out) :
    out.traffic.historical = sortedHistOf traffic ∧
    ((sortedHistOf traffic).length < 2 → out.traffic.visitsGrowthRate = 0) ∧
    (∀ hd lst : Dict, ∀ first lastv : ℚ,
      (sortedHistOf traffic).head? = some hd →
      (sortedHistOf traffic).getLast? = some lst →
      2 ≤ (sortedHistOf traffic).length →
      pointVisitsFloat hd = some first →
      pointVisitsFloat lst = some lastv →
      (first ≤ 0 → out.traffic.visitsGrowthRate = 0) ∧
      (0 < first → out.traffic.visitsGrowthRate =
        round3 ((lastv - first) / first))) ∧
    (sortedHistOf traffic = [] → out.traffic.averageMonthlyVisits = 0) ∧
    (∀ vs : List ℚ, sortedHistOf traffic ≠ [] →
      coerceVisitsFloats (sortedHistOf traffic) = .ok vs →
      out.traffic.averageMonthlyVisits =
        round2 (vs.sum / ((sortedHistOf traffic).length : ℚ))) := by
  obtain ⟨growth, avg, total, hg, ha, ht, rfl⟩ := parse_traffic_ok h
  refine ⟨rfl, ?_, ?_, ?_, ?_⟩
  · intro hlen
    have := compute_growth_short hlen
    rw [this] at hg
    simpa using hg.symm
  · intro hd lst first lastv hh hl hlen hf hlast
    have := compute_growth_long hh hl hlen hf hlast
    rw [this] at hg
    simp at hg
    constructor
    · intro hfle
      rw [if_pos hfle] at hg
      exact hg.symm
    · intro hfpos
      rw [if_neg (by linarith)] at hg
      exact hg.symm
  · intro hnil
    have : compute_average_visits (sortedHistOf traffic) = .ok 0 := by
      unfold compute_average_visits
      rw [if_pos hnil]
    rw [this] at ha
    simpa using ha.symm
  · intro vs hne hvs
    have := compute_average_ok hne hvs
    rw [this] at ha
    simpa using ha.symm

/-- Witness for C4 at the spec's scenario: growth `0.5`, average `123.33`. -/
theorem parse_traffic_growth_avg_spec_witness :
    (histScenarioOut.traffic.visitsGrowthRate = round3 ((150 - 100) / 100) ∧
     histScenarioOut.traffic.averageMonthlyVisits =
       round2 (([100, 120, 150] : List ℚ).sum /
         ((sortedHistOf ⟨some histScenario, Option.none⟩).length : ℚ))) ∧
    histScenarioOut.traffic.visitsGrowthRate = 1 / 2 ∧
    histScenarioOut.traffic.averageMonthlyVisits = 12333 / 100 :=
  ⟨⟨((parse_traffic_growth_avg_spec ⟨some histScenario, Option.none⟩
        Option.none Option.none histScenarioOut
        (by with_unfolding_all rfl)).2.2.1
      [("date", Val.str "2024-01"), ("visits", Val.int 100)]
      [("date", Val.str "2024-03"), ("visits", Val.int 150)]
      100 150 (by with_unfolding_all rfl) (by with_unfolding_all rfl)
      (by with_unfolding_all decide) (by with_unfolding_all rfl)
      (by with_unfolding_all rfl)).2 (by norm_num),
    (parse_traffic_growth_avg_spec ⟨some histScenario, Option.none⟩
        Option.none Option.none histScenarioOut
        (by with_unfolding_all rfl)).2.2.2.2
      [100, 120, 150] (by with_unfolding_all decide)
      (by with_unfolding_all rfl)⟩,
   rfl, rfl⟩

/-- C8 (amended): `visitsTotalCount` passes the raw field through whenever it
is present with a non-`None` value (even `0`), and otherwise — absent key or
explicit `None`, which `dict.get` cannot tell apart — falls back to the sum
of the integer-coerced per-point visits (missing/falsy values coerce to 0). -/
theorem parse_traffic_total_spec (traffic : TrafficIn) (ts r : Option Dict)
    (out : TrafficOut) (h : parse_traffic traffic ts r = .ok out) :
    (∀ v : Val, traffic.visitsTotalCount = some v → v ≠ Val.none →
      out.traffic.visitsTotalCount = v) ∧
    (traffic.visitsTotalCount.getD Val.none = Val.none →
      ∀ vs : List ℤ, coerceVisitsInts (sortedHistOf traffic) = .ok vs →
        out.traffic.visitsTotalCount = .int vs.sum) := by
  obtain ⟨growth, avg, total, _, _, ht, rfl⟩ := parse_traffic_ok h
  constructor
  · intro v hv hne
    have := totalCountVal_present hv hne
    rw [this] at ht
    simpa using ht.symm
  · intro habs vs hvs
    have : totalCountVal traffic = .ok (.int vs.sum) := by
      unfold totalCountVal
      rw [if_pos habs, hvs]
    rw [this] at ht
    simpa using ht.symm

/-- C8 counterexample: a `visitsTotalCount` key present with an explicit
`None` is not passed through — the fallback sum is used instead, because
`dict.get` returns `None` for both an absent key and a present `None`. -/
theorem parse_traffic_explicit_none_total :
    parse_traffic ⟨some [[("date", Val.str ""), ("visits", Val.int 5)]],
        some Val.none⟩ Option.none Option.none =
      .ok ⟨⟨[[("date", Val.str ""), ("visits", Val.int 5)]],
            .int 5, 5, 0⟩, [], []⟩ ∧
    (⟨some [[("date", Val.str ""), ("visits", Val.int 5)]],
        some Val.none⟩ : TrafficIn).visitsTotalCount = some Val.none ∧
    Val.int 5 ≠ Val.none := by
  refine ⟨?_, rfl, by simp⟩
  with_unfolding_all rfl

/-- Witness for C8's amended theorem: a present zero total is passed through
even though `0` is falsy, and an absent total falls back to the sum. -/
theorem parse_traffic_total_spec_witness :
    ((⟨⟨[[("date", Val.str ""), ("visits", Val.int 5)]], .int 0, 5, 0⟩,
        [], []⟩ : TrafficOut).traffic.visitsTotalCount = Val.int 0) ∧
    ((⟨⟨[[("date", Val.str ""), ("visits", Val.int 5)]], .int 5, 5, 0⟩,
        [], []⟩ : TrafficOut).traffic.visitsTotalCount =
      .int ([5] : List ℤ).sum) :=
  ⟨(parse_traffic_total_spec
      ⟨some [[("date", Val.str ""), ("visits", Val.int 5)]], some (Val.int 0)⟩
      Option.none Option.none
      ⟨⟨[[("date", Val.str ""), ("visits", Val.int 5)]], .int 0, 5, 0⟩, [], []⟩
      (by with_unfolding_all rfl)).1 (Val.int 0) rfl (by simp),
   (parse_traffic_total_spec
      ⟨some [[("date", Val.str ""), ("visits", Val.int 5)]], Option.none⟩
      Option.none Option.none
      ⟨⟨[[("date", Val.str ""), ("visits", Val.int 5)]], .int 5, 5, 0⟩, [], []⟩
      (by with_unfolding_all rfl)).2 rfl [5] (by with_unfolding_all rfl)⟩

/-! ## Retry wrapper lemmas -/

theorem retryLoop_all_fail {ε α : Type} (op : ℕ → Except ε α) (e : ℕ → ε)
    (hop : ∀ i, op i = .error (e i)) :
    ∀ (fuel callIdx : ℕ) (delay : ℚ),
      retryLoop op callIdx delay fuel =
        ⟨fuel + 1, (List.range fuel).map (fun k => delay * 2 ^ k),
         .error (e (callIdx + fuel))⟩ := by
  intro fuel
  induction fuel with
  | zero =>
    intro callIdx delay
    unfold retryLoop
    rw [hop callIdx]
    simp
  | succ m ih =>
    intro callIdx delay
    unfold retryLoop
    rw [hop callIdx]
    rw [ih (callIdx + 1) (delay * 2)]
    have hsleeps : delay :: (List.range m).map (fun k => delay * 2 * 2 ^ k) =
        (List.range (m + 1)).map (fun k => delay * 2 ^ k) := by
      rw [List.range_succ_eq_map, List.map_cons, List.map_map]
      congr 1
      · simp
      · apply List.map_congr_left
        intro k _
        simp only [Function.comp_apply, Nat.succ_eq_add_one, pow_succ]
        ring
    have hidx : callIdx + 1 + m = callIdx + (m + 1) := by omega
    rw [hidx]
    show RetryTrace.mk (m + 1 + 1)
        (delay :: (List.range m).map (fun k => delay * 2 * 2 ^ k))
        (.error (e (callIdx + (m + 1)))) = _
    rw [hsleeps]

theorem retryLoop_first_ok {ε α : Type} (op : ℕ → Except ε α) (callIdx : ℕ)
    (delay : ℚ) (fuel : ℕ) {a : α} (hop : op callIdx = .ok a) :
    retryLoop op callIdx delay fuel = ⟨1, [], .ok a⟩ := by
  cases fuel <;> (unfold retryLoop; rw [hop])

/-- C9: for an operation whose failures all match, the retry wrapper with
maximum retry count `n` and base backoff `b` invokes the operation exactly
`n + 1` times, sleeps `b * 2^(k-1)` seconds before the k-th retry (doubling,
no jitter, no cap), and re-raises the final failure; if the first call
succeeds, its result is returned after exactly one invocation and no sleeps. -/
theorem retryCall_spec :
    (∀ (ε α : Type) (n : ℕ) (b : ℚ) (e : ℕ → ε) (op : ℕ → Except ε α),
      (∀ i, op i = .error (e i)) →
      retryCall n b op =
        ⟨n + 1, (List.range n).map (fun k => b * 2 ^ k), .error (e n)⟩) ∧
    (∀ (ε α : Type) (n : ℕ) (b : ℚ) (op : ℕ → Except ε α) (a : α),
      op 0 = .ok a → retryCall n b op = ⟨1, [], .ok a⟩) := by
  constructor
  · intro ε α n b e op hop
    unfold retryCall
    rw [retryLoop_all_fail op e hop n 0 b]
    simp
  · intro ε α n b op a hop
    unfold retryCall
    exact retryLoop_first_ok op 0 b n hop

/-- Witness for C9: with 2 retries and base backoff 1 an always-failing
operation is called 3 times with sleeps `[1, 2]` and the last error is
re-raised; an immediately-successful operation is called once. -/
theorem retryCall_spec_witness :
    retryCall 2 1 (fun i => (Except.error i : Except ℕ Unit)) =
      ⟨2 + 1, (List.range 2).map (fun k => (1 : ℚ) * 2 ^ k), .error 2⟩ ∧
    retryCall 3 1 (fun _ => (Except.ok 7 : Except ℕ ℕ)) = ⟨1, [], .ok 7⟩ :=
  ⟨retryCall_spec.1 ℕ Unit 2 1 (fun i => i)
      (fun i => (Except.error i : Except ℕ Unit)) (fun _ => rfl),
   retryCall_spec.2 ℕ ℕ 3 1 (fun _ => (Except.ok 7 : Except ℕ ℕ)) 7 rfl⟩

/-! ## Second-application (idempotence) lemmas -/

theorem pyFloat_orDefault_float (q : ℚ) :
    pyFloat ((Val.float q).orDefault (.int 0)) = some q := by
  unfold Val.orDefault Val.falsy
  by_cases h : q = 0
  · simp [h, pyFloat]
  · simp [h, pyFloat]

theorem pyInt_orDefault_int (n : ℤ) :
    pyInt ((Val.int n).orDefault (.int 0)) = some n := by
  unfold Val.orDefault Val.falsy
  by_cases h : n = 0
  · simp [h, pyInt]
  · simp [h, pyInt]

theorem ensureSortedHistorical_idem (l : List Dict) :
    ensureSortedHistorical (ensureSortedHistorical l) = ensureSortedHistorical l := by
  unfold ensureSortedHistorical
  by_cases hall : l.all (fun x => (dateKey x).isSome)
  · rw [if_pos hall]
    have hall2 : (l.insertionSort dateRel).all (fun x => (dateKey x).isSome) := by
      rw [List.all_eq_true] at hall ⊢
      intro x hx
      exact hall x ((List.perm_insertionSort dateRel l).mem_iff.mp hx)
    rw [if_pos hall2]
    exact List.Sorted.insertionSort_eq (List.sorted_insertionSort dateRel l)
  · rw [if_neg hall, if_neg hall]

theorem totalCountVal_ne_none {traffic : TrafficIn} {v : Val}
    (h : totalCountVal traffic = .ok v) : v ≠ Val.none := by
  unfold totalCountVal at h
  by_cases hc : traffic.visitsTotalCount.getD Val.none = Val.none
  · rw [if_pos hc] at h
    cases hvs : coerceVisitsInts (sortedHistOf traffic) <;> rw [hvs] at h
    · exact absurd h (by simp)
    · simp at h
      rw [← h]
      simp
  · rw [if_neg hc] at h
    simp at h
    rw [← h]
    exact hc

theorem cleanAgeItem_ageBucketDict (a : AgeBucket) :
    cleanAgeItem (ageBucketDict a) = some a := by
  unfold cleanAgeItem ageBucketDict
  rw [show dictGet [("minAge", Val.int a.minAge), ("maxAge", Val.int a.maxAge),
      ("value", Val.float a.value)] "minAge" Val.none = Val.int a.minAge from rfl]
  rw [show dictGet [("minAge", Val.int a.minAge), ("maxAge", Val.int a.maxAge),
      ("value", Val.float a.value)] "maxAge" Val.none = Val.int a.maxAge from rfl]
  rw [show dictGet [("minAge", Val.int a.minAge), ("maxAge", Val.int a.maxAge),
      ("value", Val.float a.value)] "value" (Val.int 0) = Val.float a.value from rfl]
  rw [pyFloat_orDefault_float]
  rfl

theorem filterMap_cleanAge_map : ∀ l : List AgeBucket,
    (l.map ageBucketDict).filterMap cleanAgeItem = l := by
  intro l
  induction l with
  | nil => rfl
  | cons a t ih =>
    rw [List.map_cons, List.filterMap_cons_some (cleanAgeItem_ageBucketDict a), ih]

theorem ageDistributionOf_ids (raw : Option (List Dict)) :
    (ageDistributionOf raw).map (fun a => (a.minAge, a.maxAge)) =
      (sortedAges raw).map (fun a => (a.minAge, a.maxAge)) := by
  unfold ageDistributionOf
  by_cases h : (sortedAges raw).map (·.value) = []
  · rw [if_pos h]
  · rw [if_neg h]
    have hlen : (sortedAges raw).length ≤
        (pyNormalize ((sortedAges raw).map (·.value))).length := by
      rw [pyNormalize_length, List.length_map]
    rw [List.map_map]
    have hfst : ((sortedAges raw).zip
          (pyNormalize ((sortedAges raw).map (·.value)))).map
        ((fun a : AgeBucket => (a.minAge, a.maxAge)) ∘
          (fun p : AgeBucket × ℚ => { p.1 with value := round3 p.2 })) =
        (((sortedAges raw).zip
          (pyNormalize ((sortedAges raw).map (·.value)))).map Prod.fst).map
            (fun a : AgeBucket => (a.minAge, a.maxAge)) := by
      rw [List.map_map]
      rfl
    rw [hfst, List.map_fst_zip _ _ hlen]

theorem ageDistributionOf_pairwise (raw : Option (List Dict)) :
    (ageDistributionOf raw).Pairwise ageRel := by
  have hs : ((sortedAges raw).map (·.minAge)).Pairwise (fun a b : ℤ => a ≤ b) :=
    List.pairwise_map.mpr (sortedAges_pairwise raw)
  have hs2 : ((ageDistributionOf raw).map (·.minAge)).Pairwise
      (fun a b : ℤ => a ≤ b) := by
    rw [ageDistributionOf_minAges]
    exact hs
  show (ageDistributionOf raw).Pairwise
    (fun a b : AgeBucket => a.minAge ≤ b.minAge)
  exact List.pairwise_map.mp hs2

theorem ageDistributionOf_values_round3 (raw : Option (List Dict)) :
    ∀ a ∈ ageDistributionOf raw, round3 a.value = a.value := by
  intro a ha
  by_cases h : (sortedAges raw).map (·.value) = []
  · exfalso
    have hnil : sortedAges raw = [] := List.map_eq_nil_iff.mp h
    have h0 : ageDistributionOf raw = [] := by
      unfold ageDistributionOf
      rw [if_pos h, hnil]
    rw [h0] at ha
    simp at ha
  · have hv := ageDistributionOf_values raw h
    have hmem : a.value ∈ (ageDistributionOf raw).map (·.value) :=
      List.mem_map_of_mem _ ha
    rw [hv] at hmem
    obtain ⟨q, _, hq⟩ := List.mem_map.mp hmem
    rw [← hq, round3_idem]

theorem pyNormalize_of_sum_one {values : List ℚ} (h : values.sum = 1) :
    pyNormalize values = values := by
  rw [pyNormalize_of_pos (by rw [h]; norm_num), h]
  rw [List.map_congr_left (fun v _ => div_one v)]
  exact List.map_id _

theorem zip_self_round3 : ∀ l : List AgeBucket,
    (∀ a ∈ l, round3 a.value = a.value) →
    (l.zip (l.map (·.value))).map
      (fun p => { p.1 with value := round3 p.2 }) = l := by
  intro l
  induction l with
  | nil => intro _; rfl
  | cons a t ih =>
    intro h
    rw [List.map_cons, List.zip_cons_cons, List.map_cons]
    rw [ih (fun b hb => h b (List.mem_cons_of_mem _ hb))]
    have ha := h a (List.mem_cons_self _ _)
    rw [ha]

theorem cleanCompetitor_fix {c d : Dict} (h : cleanCompetitor c = .ok (some d)) :
    cleanCompetitor d = .ok (some d) := by
  obtain ⟨hdom, vi, sf, rfl⟩ := cleanCompetitor_some_shape h
  have hds : domainStr [("domain", Val.str (domainStr c)),
      ("visitsTotalCount", Val.int vi), ("similarityScore", Val.float sf)] =
      domainStr c := by
    show pyStrip (Val.pyStr (dictGet [("domain", Val.str (domainStr c)),
      ("visitsTotalCount", Val.int vi), ("similarityScore", Val.float sf)]
        "domain" (Val.str ""))) = domainStr c
    rw [show dictGet [("domain", Val.str (domainStr c)),
        ("visitsTotalCount", Val.int vi), ("similarityScore", Val.float sf)]
        "domain" (Val.str "") = Val.str (domainStr c) from rfl]
    exact pyStrip_idem _
  unfold cleanCompetitor
  rw [hds, if_neg hdom]
  have hvis : visitsVal [("domain", Val.str (domainStr c)),
      ("visitsTotalCount", Val.int vi), ("similarityScore", Val.float sf)] =
      (Val.int vi).orDefault (.int 0) := rfl
  have hsim : similarityVal [("domain", Val.str (domainStr c)),
      ("visitsTotalCount", Val.int vi), ("similarityScore", Val.float sf)] =
      Val.float sf := rfl
  rw [hvis, hsim, pyInt_orDefault_int]
  rw [show pyFloat (Val.float sf) = some sf from rfl]

theorem cleanCompetitors_fix : ∀ l : List Dict,
    (∀ d ∈ l, cleanCompetitor d = .ok (some d)) →
    cleanCompetitors l = .ok l := by
  intro l
  induction l with
  | nil => intro _; rfl
  | cons d t ih =>
    intro h
    unfold cleanCompetitors
    rw [h d (List.mem_cons_self _ _), ih (fun b hb => h b (List.mem_cons_of_mem _ hb))]

theorem ageDistributionOf_eq_of {raw : Option (List Dict)}
    (hnil : (sortedAges raw).map (·.value) ≠ []) :
    ageDistributionOf raw =
      ((sortedAges raw).zip (pyNormalize ((sortedAges raw).map (·.value)))).map
        (fun p => { p.1 with value := round3 p.2 }) := by
  unfold ageDistributionOf
  rw [if_neg hnil]

/-- C7 (amended): second applications of the three normalizers.
`parse_traffic` is an exact fixed point; so is the gender half of
`parse_demographics`; the age half keeps every bucket's `minAge`/`maxAge`
and their order, and keeps the values too whenever the first-pass values sum
exactly to 1; `parse_competitors` keeps `topSimilarityCompetitors` unchanged
but `competitorsCount` becomes `min 10 competitorsCount` — so it is *not*
unchanged when more than 10 entries were cleaned (see the counterexample). -/
theorem normalizers_second_application :
    (∀ (traffic : TrafficIn) (ts r : Option Dict) (out : TrafficOut),
      parse_traffic traffic ts r = .ok out →
      parse_traffic ⟨some out.traffic.historical,
          some out.traffic.visitsTotalCount⟩
        (some out.trafficSources) (some out.ranking) = .ok out) ∧
    (∀ g : Option Dict,
      genderDistributionOf
        (some [("male", Val.float (genderDistributionOf g).male),
               ("female", Val.float (genderDistributionOf g).female)]) =
        genderDistributionOf g) ∧
    (∀ raw : Option (List Dict),
      (ageDistributionOf (some ((ageDistributionOf raw).map ageBucketDict))).map
          (fun a => (a.minAge, a.maxAge)) =
        (ageDistributionOf raw).map (fun a => (a.minAge, a.maxAge)) ∧
      (((ageDistributionOf raw).map (·.value)).sum = 1 →
        ageDistributionOf (some ((ageDistributionOf raw).map ageBucketDict)) =
          ageDistributionOf raw)) ∧
    (∀ (l : List Dict) (out : CompetitorsOut),
      parse_competitors (some l) = .ok out →
      parse_competitors (some out.topSimilarityCompetitors) =
        .ok ⟨out.topSimilarityCompetitors, min 10 out.competitorsCount⟩) := by
  refine ⟨?_, ?_, ?_, ?_⟩
  · intro traffic ts r out h
    obtain ⟨growth, avg, total, hg, ha, ht, rfl⟩ := parse_traffic_ok h
    have hnn := totalCountVal_ne_none ht
    have hsort2 : sortedHistOf
        (⟨some (sortedHistOf traffic), some total⟩ : TrafficIn) =
        sortedHistOf traffic := by
      show ensureSortedHistorical
        ((some (sortedHistOf traffic)).getD []) = sortedHistOf traffic
      rw [Option.getD_some]
      exact ensureSortedHistorical_idem _
    have hg2 : compute_growth (sortedHistOf
        (⟨some (sortedHistOf traffic), some total⟩ : TrafficIn)) = .ok growth := by
      rw [hsort2]
      exact hg
    have ha2 : compute_average_visits (sortedHistOf
        (⟨some (sortedHistOf traffic), some total⟩ : TrafficIn)) = .ok avg := by
      rw [hsort2]
      exact ha
    have ht2 : totalCountVal
        (⟨some (sortedHistOf traffic), some total⟩ : TrafficIn) = .ok total :=
      totalCountVal_present rfl hnn
    have hb := @parse_traffic_build
      ⟨some (sortedHistOf traffic), some total⟩
      (some (ts.getD [])) (some (r.getD [])) growth avg total hg2 ha2 ht2
    rw [hsort2] at hb
    exact hb
  · intro g
    have hsum : (genderDistributionOf g).male + (genderDistributionOf g).female = 1 :=
      round3_add_eq_one (genderNormalized_sum _)
    have hco : genderCoerced [("male", Val.float (genderDistributionOf g).male),
        ("female", Val.float (genderDistributionOf g).female)] =
        ((genderDistributionOf g).male, (genderDistributionOf g).female) := by
      unfold genderCoerced
      rw [show dictGet [("male", Val.float (genderDistributionOf g).male),
          ("female", Val.float (genderDistributionOf g).female)] "male" (.int 0) =
          Val.float (genderDistributionOf g).male from rfl]
      rw [show dictGet [("male", Val.float (genderDistributionOf g).male),
          ("female", Val.float (genderDistributionOf g).female)] "female" (.int 0) =
          Val.float (genderDistributionOf g).female from rfl]
      rw [pyFloat_orDefault_float, pyFloat_orDefault_float]
    have hnorm : genderNormalized
        ((genderDistributionOf g).male, (genderDistributionOf g).female) =
        ((genderDistributionOf g).male, (genderDistributionOf g).female) := by
      unfold genderNormalized
      rw [if_neg (by
        intro hboth
        have := hboth.1
        have := hboth.2
        linarith)]
      rw [show [((genderDistributionOf g).male, (genderDistributionOf g).female).1,
          ((genderDistributionOf g).male, (genderDistributionOf g).female).2] =
          [(genderDistributionOf g).male, (genderDistributionOf g).female] from rfl]
      rw [pyNormalize_of_sum_one (by simp [hsum])]
    have heq : ∀ d : Dict, genderDistributionOf (some d) =
        ⟨round3 (genderNormalized (genderCoerced d)).1,
         round3 (genderNormalized (genderCoerced d)).2⟩ := fun _ => rfl
    have hout : genderDistributionOf
        (some [("male", Val.float (genderDistributionOf g).male),
               ("female", Val.float (genderDistributionOf g).female)]) =
        ⟨round3 (genderDistributionOf g).male,
         round3 (genderDistributionOf g).female⟩ := by
      rw [heq, hco, hnorm]
    rw [hout]
    have hrm : round3 (genderDistributionOf g).male =
        (genderDistributionOf g).male := round3_idem _
    have hrf : round3 (genderDistributionOf g).female =
        (genderDistributionOf g).female := round3_idem _
    rw [hrm, hrf]
  · intro raw
    have hclean : sortedAges (some ((ageDistributionOf raw).map ageBucketDict)) =
        ageDistributionOf raw := by
      unfold sortedAges
      rw [Option.getD_some, filterMap_cleanAge_map]
      exact List.Sorted.insertionSort_eq (ageDistributionOf_pairwise raw)
    constructor
    · rw [ageDistributionOf_ids, hclean]
    · intro hsum1
      have hne : (ageDistributionOf raw).map (·.value) ≠ [] := by
        intro he
        rw [he] at hsum1
        simp at hsum1
      rw [ageDistributionOf_eq_of (by rw [hclean]; exact hne)]
      rw [hclean, pyNormalize_of_sum_one hsum1]
      exact zip_self_round3 _ (ageDistributionOf_values_round3 raw)
  · intro l out h
    obtain ⟨cleaned, hc, rfl⟩ := parse_competitors_ok h
    have htop : ∀ d ∈ (cleaned.insertionSort compRel).take 10,
        cleanCompetitor d = .ok (some d) := by
      intro d hd
      have hd' : d ∈ cleaned := by
        have := List.mem_of_mem_take hd
        rwa [List.mem_insertionSort] at this
      obtain ⟨c, _, hcl⟩ := cleanCompetitors_mem hc hd'
      exact cleanCompetitor_fix hcl
    have hcl2 : cleanCompetitors ((cleaned.insertionSort compRel).take 10) =
        .ok ((cleaned.insertionSort compRel).take 10) :=
      cleanCompetitors_fix _ htop
    have hsorted : ((cleaned.insertionSort compRel).take 10).Pairwise compRel :=
      (List.sorted_insertionSort compRel cleaned).sublist (List.take_sublist _ _)
    have hsort_eq : ((cleaned.insertionSort compRel).take 10).insertionSort
        compRel = (cleaned.insertionSort compRel).take 10 :=
      List.Sorted.insertionSort_eq hsorted
    have hlen : ((cleaned.insertionSort compRel).take 10).length =
        min 10 cleaned.length := by
      simp [List.length_take, List.length_insertionSort]
    show parse_competitors (some ((cleaned.insertionSort compRel).take 10)) = _
    unfold parse_competitors
    rw [Option.getD_some, hcl2]
    show Except.ok (⟨((((cleaned.insertionSort compRel).take 10)).insertionSort
          compRel).take 10,
        ((cleaned.insertionSort compRel).take 10).length⟩ : CompetitorsOut) =
      Except.ok (⟨(cleaned.insertionSort compRel).take 10,
        min 10 cleaned.length⟩ : CompetitorsOut)
    rw [hsort_eq, List.take_of_length_le (by rw [hlen]; exact Nat.min_le_left _ _),
      hlen]

/-- C7 counterexample: on 11 cleaned entries the first pass reports
`competitorsCount = 11` but keeps only 10; feeding its own output back yields
`competitorsCount = 10 ≠ 11`, so the composed normalizer output is not a
fixed point. -/
theorem parse_competitors_not_idempotent :
    parse_competitors (some (List.replicate 11 [("domain", Val.str "a")])) =
      .ok ⟨List.replicate 10 cleanedA, 11⟩ ∧
    parse_competitors (some (List.replicate 10 cleanedA)) =
      .ok ⟨List.replicate 10 cleanedA, 10⟩ ∧
    (10 : ℕ) ≠ 11 := by
  refine ⟨?_, ?_, by norm_num⟩
  · with_unfolding_all rfl
  · with_unfolding_all rfl

/-- Witness for C7's amended theorem: each second application evaluated on a
concrete first-pass output. -/
theorem normalizers_second_application_witness :
    (parse_traffic ⟨some t7out.traffic.historical,
        some t7out.traffic.visitsTotalCount⟩
      (some t7out.trafficSources) (some t7out.ranking) = .ok t7out) ∧
    (genderDistributionOf
        (some [("male", Val.float (genderDistributionOf Option.none).male),
               ("female", Val.float (genderDistributionOf Option.none).female)]) =
      genderDistributionOf Option.none) ∧
    (ageDistributionOf (some ((ageDistributionOf (some posBuckets2)).map
        ageBucketDict)) = ageDistributionOf (some posBuckets2)) ∧
    (parse_competitors (some [cleanedB]) = .ok ⟨[cleanedB], min 10 1⟩) :=
  ⟨normalizers_second_application.1
      ⟨some [[("date", Val.str ""), ("visits", Val.int 5)]], some (Val.int 7)⟩
      Option.none Option.none t7out (by with_unfolding_all rfl),
   normalizers_second_application.2.1 Option.none,
   (normalizers_second_application.2.2.1 (some posBuckets2)).2
      (by with_unfolding_all decide),
   normalizers_second_application.2.2.2 [[("domain", Val.str "b")]]
      ⟨[cleanedB], 1⟩ (by with_unfolding_all rfl)⟩

end SimilarwebScraper
